import Mathlib

/-!
Verification of the reference-data store (reference_service / reposity_manager).

The Python source is duck-typed: entities are objects whose attributes are read
with getattr(obj, name, default) and written with setattr.  We embed an entity
as an association list of named attribute values; attribute values are strings,
dictionaries (string-keyed records, as used by receipt composition entries),
embedded entity objects, or lists of such values.  `pyGetattr`/`pySetattr`
mirror getattr/setattr on the first occurrence of a key, which is exact for
Python objects (whose attribute dictionaries have unique keys).

A Python attribute holding None behaves, in every code path modelled here,
exactly like a missing attribute (all reads go through getattr(.., None) or a
truthiness test), so we represent both as absence.
-/

set_option maxHeartbeats 1000000

mutual

inductive Value : Type where
  | str : String → Value
  | dct : List (String × String) → Value
  | ent : Entity → Value
  | lst : List Value → Value

inductive Entity : Type where
  | mk : List (String × Value) → Entity

end

def Entity.attrs : Entity → List (String × Value)
  | .mk a => a

/-- getattr(obj, name, None): first binding of the attribute, if any. -/
def pyGetattr (e : Entity) (a : String) : Option Value :=
  ((e.attrs.find? (fun p => p.1 == a)).map (fun p => p.2))

/-- dict.get(key): lookup in a dictionary value. -/
def dctGet (d : List (String × String)) (k : String) : Option String :=
  ((d.find? (fun p => p.1 == k)).map (fun p => p.2))

/-- Python truthiness of an attribute value ("" , {} and [] are falsy). -/
def truthyV : Value → Bool
  | .str s => !(s == "")
  | .dct d => !d.isEmpty
  | .ent _ => true
  | .lst l => !l.isEmpty

/-- getattr(v, "unique_code", None) read as a string (non-objects and
non-string codes never compare equal to a string id). -/
def valUc : Value → Option String
  | .ent e =>
      match ((e.attrs.find? (fun p => p.1 == "unique_code")).map (fun p => p.2)) with
      | some (Value.str s) => some s
      | _ => none
  | _ => none

/-- A string-valued attribute, if it is one. -/
def getStrAttr (e : Entity) (a : String) : Option String :=
  match pyGetattr e a with
  | some (.str s) => some s
  | _ => none

/-- getattr(x, "unique_code", None) on an entity, as a string. -/
def Entity.uc (e : Entity) : Option String := getStrAttr e "unique_code"

/-- Replace the first binding of `a` (setattr on a present attribute),
append a new binding otherwise (setattr on a new attribute). -/
def setAttrList (l : List (String × Value)) (a : String) (v : Value) :
    List (String × Value) :=
  match l with
  | [] => [(a, v)]
  | p :: rest => if p.1 == a then (a, v) :: rest else p :: setAttrList rest a v

def pySetattr (e : Entity) (a : String) (v : Value) : Entity :=
  .mk (setAttrList e.attrs a v)

def pyHasattr (e : Entity) (a : String) : Bool :=
  (e.attrs.find? (fun p => p.1 == a)).isSome

/-- One step of the field-patch loop of reference_service.update:
`if hasattr(target, k): setattr(target, k, v)` — the set_<k> fallback never
fires for plain model attributes (the models in this repository expose plain
fields, no set_<k> methods are modelled), so an unknown field is ignored. -/
def pySetattrIfHas (e : Entity) (a : String) (v : Value) : Entity :=
  if pyHasattr e a then pySetattr e a v else e

/-- `for k, v in partial_payload.items(): ...` field application. -/
def applyPayload (e : Entity) (p : List (String × Value)) : Entity :=
  p.foldl (fun acc kv => pySetattrIfHas acc kv.1 kv.2) e

/-- The value the last write of `p` to field `a` leaves behind. -/
def lastVal : List (String × Value) → String → Option Value
  | [], _ => none
  | q :: rest, a =>
      match lastVal rest a with
      | some v => some v
      | none => if q.1 == a then some q.2 else none

/-- Attribute keys of an entity are distinct: true of every Python object
(an object's attribute dictionary cannot repeat a name). -/
def Entity.keysNodup (e : Entity) : Prop := (e.attrs.map (fun p => p.1)).Nodup

instance (e : Entity) : Decidable (Entity.keysNodup e) :=
  List.nodupDecidable _

/-- The repository mapping: reposity_manager.data, an insertion-ordered
dictionary from collection key to list of entities. -/
abbrev Store := List (String × List Entity)

/-- self.__repo.data.get(key, []). -/
def Store.getList (s : Store) (k : String) : List Entity :=
  (((s.find? (fun p => p.1 == k)).map (fun p => p.2))).getD []

/-- self.__repo.data[key] = l  (replace the binding, or add one). -/
def Store.setList : Store → String → List Entity → Store
  | [], k, l => [(k, l)]
  | p :: rest, k, l =>
      if p.1 == k then (k, l) :: rest else p :: Store.setList rest k l

/-- In-place mutation of every object of the collection at `k`; a missing key
is left missing (data.get(k, []) returns a fresh empty list). -/
def Store.mapAt (s : Store) (k : String) (f : Entity → Entity) : Store :=
  s.map (fun p => if p.1 == k then (p.1, p.2.map f) else p)

/-- In-place replacement of the collection at an existing key `k`;
a missing key is left missing. -/
def Store.putAt (s : Store) (k : String) (l : List Entity) : Store :=
  s.map (fun p => if p.1 == k then (p.1, l) else p)

def Store.containsKey (s : Store) (k : String) : Bool :=
  (s.find? (fun p => p.1 == k)).isSome

namespace reference_service

/-- Errors raised by reference_service; one constructor per distinct raise
site (the source raises argument_exception / operation_exception with
distinguishing messages). -/
inductive ServiceError : Type where
  | unknownReferenceKind : String → ServiceError
  | unsupportedReferenceType : String → ServiceError
  | notFound : String → String → ServiceError
  | referentialIntegrity : String → String → List (String × String) → ServiceError

/-- Python's str.lower() on an ASCII letter (all kind names are ASCII). -/
def lowerChar (c : Char) : Char :=
  if c.toNat ≥ 65 && c.toNat ≤ 90 then Char.ofNat (c.toNat + 32) else c

/-- Python's str.strip() whitespace test (ASCII whitespace). -/
def isSpaceChar (c : Char) : Bool :=
  c == ' ' || c == '\t' || c == '\n' || c == '\r' || c == '\x0b' || c == '\x0c'

/-- (reference_type or "").strip().lower() -/
def normaliseType (rt : String) : String :=
  ⟨(((rt.data.dropWhile isSpaceChar).reverse.dropWhile isSpaceChar).reverse).map
      lowerChar⟩

/-- reference_service._map_type_to_repo_key: reposity_manager has all four
*_key methods, so the hasattr branches resolve to the methods' values
(note storage_key() returns "storage_key", not "storage_model"). -/
def map_type_to_repo_key (rt : String) : Except ServiceError String :=
  if ["nomenclature", "nomenclature_model", "nomenclatures", "nomen"].contains
      (normaliseType rt) then
    .ok "nomenclature_model"
  else if ["range", "range_model", "unit", "units"].contains (normaliseType rt) then
    .ok "range_model"
  else if ["group", "category", "group_model", "category_model"].contains
      (normaliseType rt) then
    .ok "group_model"
  else if ["storage", "warehouse", "storage_model", "warehouse_model"].contains
      (normaliseType rt) then
    .ok "storage_key"
  else .error (.unknownReferenceKind rt)

/-- The scalar candidate attributes of _is_used_elsewhere. -/
def scalarAttrs : List String :=
  ["nomenclature", "nomenclature_id", "item", "unit", "range", "range_id",
   "category", "category_id", "group", "storage", "storage_id"]

/-- The list-typed composition attributes filtered from dir(obj)
(dir enumerates alphabetically). -/
def compositionAttrs : List String :=
  ["_composition", "composition", "composition_list", "items"]

/-- candidate_attrs for one object: the scalar list plus those composition
attributes the object actually has. -/
def objCandidateAttrs (obj : Entity) : List String :=
  scalarAttrs ++ compositionAttrs.filter (fun a => (pyGetattr obj a).isSome)

/-- One found dependency: {"repo_key": key, "container": obj, "attr": attr,
"matched": val}. -/
structure Dep : Type where
  repo_key : String
  container : Entity
  attr : String
  matched : Value

/-- The matches one attribute value contributes in _is_used_elsewhere:
for list values, dict elements are matched on .get("nomenclature_id") and
objects on getattr(sub, "unique_code", None); for scalar values, on
getattr(val, "unique_code", None) == item_id or val == item_id. -/
def valueDeps (key : String) (cont : Entity) (attr : String) (item_id : String) :
    Value → List Dep
  | .lst subs =>
      subs.filterMap (fun sub =>
        match sub with
        | .dct d =>
            if dctGet d "nomenclature_id" == some item_id then
              some ⟨key, cont, attr, .dct d⟩
            else none
        | .ent e =>
            if Entity.uc e == some item_id then some ⟨key, cont, attr, .ent e⟩
            else none
        | _ => none)
  | .ent e =>
      if Entity.uc e == some item_id then [⟨key, cont, attr, .ent e⟩] else []
  | .str sv => if sv == item_id then [⟨key, cont, attr, .str sv⟩] else []
  | .dct _ => []

/-- reference_service._is_used_elsewhere. -/
def is_used_elsewhere (s : Store) (item_id : String) (exclude : Option String) :
    List Dep :=
  (s.filter (fun p => !(exclude == some p.1))).flatMap (fun p =>
    p.2.flatMap (fun obj =>
      (objCandidateAttrs obj).flatMap (fun attr =>
        match pyGetattr obj attr with
        | none => []
        | some v => valueDeps p.1 obj attr item_id v)))

/-- reference_service._all_possible_repo_keys: reposity_manager has both
receipt_key ("receipt_model") and transaction_key ("transaction_key"), then
the literal extension; deduplication removes nothing here. -/
def all_possible_repo_keys : List String :=
  ["receipt_model", "transaction_key", "balance_model", "turnover_model",
   "saved_turnover", "balances", "turnovers"]

/-- Auxiliary for the substring test: does the second character list start
with the first? -/
def chListStarts : List Char → List Char → Bool
  | [], _ => true
  | _ :: _, [] => false
  | a :: as, b :: bs => a == b && chListStarts as bs

/-- Auxiliary for the substring test: does the pattern occur anywhere? -/
def chListHasSub (pat : List Char) : List Char → Bool
  | [] => chListStarts pat []
  | c :: rest => chListStarts pat (c :: rest) || chListHasSub pat rest

/-- `"pat" in k` on strings. -/
def strContains (k pat : String) : Bool := chListHasSub pat.data k.data

def receipt_keys : List String :=
  all_possible_repo_keys.filter (fun k =>
    strContains k "receipt" || strContains k "recipe" || strContains k "receipts")

def transaction_keys : List String :=
  all_possible_repo_keys.filter (fun k =>
    strContains k "transaction" || strContains k "transactions" ||
    strContains k "saved_turnover" || strContains k "turnover")

def balance_keys : List String :=
  all_possible_repo_keys.filter (fun k =>
    strContains k "balance" || strContains k "turnover" || strContains k "saved_turnover")

/-- `if getattr(x, a, None) and getattr(x.a, "unique_code", None) == item_id:
x.a = updated_obj` — the guarded embedded-reference replacement (falsy or
non-object values never match since they carry no matching unique_code). -/
def updEmbeddedAttr (e : Entity) (a : String) (item_id : String) (upd : Entity) :
    Entity :=
  match pyGetattr e a with
  | some (.ent n) =>
      if Entity.uc n == some item_id then pySetattr e a (.ent upd) else e
  | _ => e

/-- One composition item of a receipt: `nom = getattr(item, "nomenclature",
None); if nom and getattr(nom, "unique_code", None) == item_id:
item.nomenclature = updated_obj`, then the same guarded rewrite for unit and
storage.  The three-argument getattr never raises, so the unit/storage checks
always run; a truthy non-object nomenclature (or an object without
unique_code) reads None there and simply never matches the string id — each
guard is exactly the embedded-reference pattern.  Non-object items (dicts,
strings, the characters/keys a string or dict composition iterates into)
respond to none of the attribute reads and pass through unchanged. -/
def updCompItem (item_id : String) (upd : Entity) : Value → Value
  | .ent e =>
      .ent (updEmbeddedAttr (updEmbeddedAttr
        (updEmbeddedAttr e "nomenclature" item_id upd) "unit" item_id upd)
        "storage" item_id upd)
  | v => v

/-- comp = getattr(r, "composition", None) or getattr(r, "_composition", None)
or getattr(r, "items", None) or []: the first truthy value in that order. -/
def compPick (r : Entity) : Option (String × Value) :=
  match pyGetattr r "composition" with
  | some v =>
      if truthyV v then some ("composition", v)
      else
        match pyGetattr r "_composition" with
        | some w =>
            if truthyV w then some ("_composition", w)
            else
              match pyGetattr r "items" with
              | some u => if truthyV u then some ("items", u) else none
              | none => none
        | none =>
            match pyGetattr r "items" with
            | some u => if truthyV u then some ("items", u) else none
            | none => none
  | none =>
      match pyGetattr r "_composition" with
      | some w =>
          if truthyV w then some ("_composition", w)
          else
            match pyGetattr r "items" with
            | some u => if truthyV u then some ("items", u) else none
            | none => none
      | none =>
          match pyGetattr r "items" with
          | some u => if truthyV u then some ("items", u) else none
          | none => none

/-- A truthy non-iterable composition value (an object) makes
`for item in comp` raise TypeError, aborting the whole cascade (the exception
is only caught around the _update_dependencies_on_change call). Strings and
dicts iterate harmlessly (over characters / keys, which respond to none of the
attribute accesses). -/
def compCrash (r : Entity) : Bool :=
  match compPick r with
  | some (_, .ent _) => true
  | _ => false

/-- One receipt of the receipt-keys pass (no crash): the chosen composition
list is updated item by item, in place. -/
def updReceipt (item_id : String) (upd : Entity) (r : Entity) : Entity :=
  match compPick r with
  | some (a, .lst l) => pySetattr r a (.lst (l.map (updCompItem item_id upd)))
  | _ => r

/-- The receipt list pass, stopping at the first receipt whose composition
value raises TypeError (earlier receipts stay mutated — the mutation is in
place in the source). -/
def updReceiptListAbort (item_id : String) (upd : Entity) :
    List Entity → List Entity × Bool
  | [] => ([], false)
  | r :: rest =>
      if compCrash r then (r :: rest, true)
      else
        let res := updReceiptListAbort item_id upd rest
        (updReceipt item_id upd r :: res.1, res.2)

/-- The receipts phase of _update_dependencies_on_change over all receipt
keys, propagating the TypeError abort. -/
def receiptsPhase (s : Store) (item_id : String) (upd : Entity) : Store × Bool :=
  receipt_keys.foldl
    (fun acc rk =>
      if acc.2 then acc
      else
        let res := updReceiptListAbort item_id upd (acc.1.getList rk)
        (acc.1.putAt rk res.1, res.2))
    (s, false)

/-- The nomenclature_id-triggered step of the transaction pass:
`if getattr(t, "nomenclature_id", None) and t.nomenclature_id == item_id:
t.nomenclature = updated_obj; t.nomenclature_id = getattr(updated_obj,
"unique_code", None)`.  An updated object without a string unique_code would
store None in the id field; we represent that by leaving the (falsy) field
untouched for further reads. -/
def idStepT (item_id : String) (upd : Entity) (t1 : Entity) : Entity :=
  match pyGetattr t1 "nomenclature_id" with
  | some (.str s) =>
      if !(s == "") && s == item_id then
        match Entity.uc upd with
        | some u =>
            pySetattr (pySetattr t1 "nomenclature" (.ent upd)) "nomenclature_id"
              (.str u)
        | none => pySetattr t1 "nomenclature" (.ent upd)
      else t1
  | _ => t1

/-- The nomenclature_id-triggered step of the balance/turnover pass,
which does not rewrite the id field. -/
def idStepB (item_id : String) (upd : Entity) (b1 : Entity) : Entity :=
  match pyGetattr b1 "nomenclature_id" with
  | some (.str s) =>
      if !(s == "") && s == item_id then pySetattr b1 "nomenclature" (.ent upd)
      else b1
  | _ => b1

/-- One transaction of the transaction-keys pass: embedded nomenclature, then
the nomenclature_id-triggered replacement (which also rewrites the id to the
updated object's unique_code), then embedded unit and storage. -/
def updTransaction (item_id : String) (upd : Entity) (t : Entity) : Entity :=
  updEmbeddedAttr
    (updEmbeddedAttr
      (idStepT item_id upd (updEmbeddedAttr t "nomenclature" item_id upd))
      "unit" item_id upd)
    "storage" item_id upd

/-- One balance/turnover entry: like a transaction, but the
nomenclature_id-triggered replacement does not rewrite the id field. -/
def updBalance (item_id : String) (upd : Entity) (b : Entity) : Entity :=
  updEmbeddedAttr
    (updEmbeddedAttr
      (idStepB item_id upd (updEmbeddedAttr b "nomenclature" item_id upd))
      "unit" item_id upd)
    "storage" item_id upd

/-- reference_service._update_dependencies_on_change: receipts, then
transactions, then balances/turnovers; a TypeError in the receipts phase
aborts the rest (update swallows it). -/
def update_dependencies_on_change (s : Store) (item_id : String) (upd : Entity) :
    Store :=
  let rp := receiptsPhase s item_id upd
  if rp.2 then rp.1
  else
    let s2 := transaction_keys.foldl
      (fun acc tk => acc.mapAt tk (updTransaction item_id upd)) rp.1
    balance_keys.foldl (fun acc k => acc.mapAt k (updBalance item_id upd)) s2

/-- reference_service.get (filter_dto = None). `if item_id:`—None and the
empty string skip the per-id filter and return the whole collection. -/
def get (s : Store) (rt : String) (item_id : Option String) :
    Except ServiceError (List Entity) :=
  match map_type_to_repo_key rt with
  | .error er => .error er
  | .ok key =>
      let data := s.getList key
      match item_id with
      | some i =>
          if !(i == "") then .ok (data.filter (fun x => Entity.uc x == some i))
          else .ok data
      | none => .ok data

/-- t.startswith(pat). -/
def strStarts (t pat : String) : Bool := chListStarts pat.data t.data

/-- The dto-dispatch branches of reference_service.add (note "category_model"
and "warehouse_model" resolve a repo key but fall through every construction
branch to `raise argument_exception("Unsupported reference type")`). -/
def add_branch_ok (t : String) : Bool :=
  strStarts t "nomen" ||
  (strStarts t "range" || t == "unit" || t == "units") ||
  (strStarts t "group" || t == "category") ||
  (strStarts t "storage" || t == "warehouse")

/-- reference_service.add.

Modelled from the spec: the Dtos and Models packages (<kind>_model.from_dto,
validator.validate) are not under src; §4.3 specifies that a candidate entity
record is constructed from the validated dto, its unique_code generated at
creation, with embedded references optionally resolved through the
operation-local cache.  We take the constructed model instance as the
argument; the source then appends it to the target collection
unconditionally, logs to settings (external), and publishes
"reference_added". -/
def add (s : Store) (rt : String) (model_instance : Entity) :
    Except ServiceError (Entity × List String) × Store :=
  match map_type_to_repo_key rt with
  | .error er => (.error er, s)
  | .ok key =>
      if add_branch_ok (normaliseType rt) then
        (.ok (model_instance, ["reference_added"]),
         s.setList key (s.getList key ++ [model_instance]))
      else (.error (.unsupportedReferenceType rt), s)

/-- Replace the first entity whose unique_code is `i` (the object mutated in
place by update). -/
def replaceFirstByUc : List Entity → String → Entity → List Entity
  | [], _, _ => []
  | x :: xs, i, e' =>
      if Entity.uc x == some i then e' :: xs else x :: replaceFirstByUc xs i e'

/-- reference_service.update.  rest_service().calc() is not under src; the
spec (§6) treats the recompute trigger as an external collaborator whose
failure must not affect the update, so it is modelled as a no-op on the
reference collections.  The settings write is external.  The second component
is the repository state when the call returns (or raises). -/
def update (s : Store) (rt : String) (item_id : String)
    (payload : List (String × Value)) :
    Except ServiceError (Entity × List String) × Store :=
  match map_type_to_repo_key rt with
  | .error er => (.error er, s)
  | .ok key =>
      let data := s.getList key
      match data.find? (fun x => Entity.uc x == some item_id) with
      | none => (.error (.notFound item_id rt), s)
      | some target =>
          let target2 := applyPayload target payload
          let s2 := s.setList key (replaceFirstByUc data item_id target2)
          let s3 := update_dependencies_on_change s2 item_id target2
          (.ok (target2, ["reference_updated"]), s3)

/-- reference_service.delete: resolve, locate (NotFound), dependency scan
(ReferentialIntegrity with the first three holders), remove, publish
"reference_deleted". -/
def delete (s : Store) (rt : String) (item_id : String) :
    Except ServiceError (List String) × Store :=
  match map_type_to_repo_key rt with
  | .error er => (.error er, s)
  | .ok key =>
      let data := s.getList key
      match data.find? (fun x => Entity.uc x == some item_id) with
      | none => (.error (.notFound item_id rt), s)
      | some _ =>
          let deps := is_used_elsewhere s item_id (some key)
          if deps.isEmpty then
            (.ok ["reference_deleted"],
             s.setList key (data.filter (fun x => !(Entity.uc x == some item_id))))
          else
            (.error (.referentialIntegrity rt item_id
              ((deps.take 3).map (fun d => (d.repo_key, d.attr)))), s)

end reference_service

namespace reposity_manager

/-- Errors raised by reposity_manager.load; one constructor per raise site
("Не найден файл настроек!" when no file name is configured, "Ошибка чтения
JSON из файла!" when the text does not parse). -/
inductive RepoError : Type where
  | configurationError : RepoError
  | formatError : RepoError

/-- reposity_manager.keys(): the values of the *_key static methods, in the
alphabetical order dir() enumerates them (group_key, nomenclature_key,
range_key, receipt_key, rest_key, storage_key, transaction_key). -/
def keys : List String :=
  ["group_model", "nomenclature_model", "range_model", "receipt_model",
   "rest_key", "storage_key", "transaction_key"]

/-- The manager's state: the configured file name (getattr(self, "file_name",
"") — the unset attribute reads as "") and the shared data dictionary. -/
structure RepoState : Type where
  file_name : String
  data : Store

/-- The backing resource as load sees it: absent (FileNotFoundError), present
but not well-formed JSON, or a parsed document.  A loaded document's values
are the raw serialized collections; serialized records are themselves
string-keyed records, so they live in the same Entity representation. -/
inductive FileContent : Type where
  | missing : FileContent
  | malformed : FileContent
  | doc : List (String × List Entity) → FileContent

/-- raw_data.get(key, []). -/
def docGet (d : List (String × List Entity)) (k : String) : List Entity :=
  (((d.find? (fun p => p.1 == k)).map (fun p => p.2))).getD []

/-- raw_data.get(key) as an optional value (to state the defaulting). -/
def docFind (d : List (String × List Entity)) (k : String) :
    Option (List Entity) :=
  ((d.find? (fun p => p.1 == k)).map (fun p => p.2))

/-- reposity_manager.initalize (sic): every key of the closed key set is set
to a fresh empty collection. -/
def initalize (d : Store) : Store :=
  keys.foldl (fun acc k => acc.setList k []) d

/-- reposity_manager.load: ConfigurationError without a file name; a missing
file initalizes and reports not-loaded; unparseable text is a FormatError;
otherwise every key of the closed key set is populated from the document,
defaulting to []. -/
def load (st : RepoState) (file : FileContent) :
    Except RepoError (RepoState × Bool) :=
  if st.file_name == "" then .error .configurationError
  else
    match file with
    | .missing => .ok ({ st with data := initalize st.data }, false)
    | .malformed => .error .formatError
    | .doc d =>
        .ok ({ st with data := keys.foldl (fun acc k => acc.setList k (docGet d k)) st.data },
             true)

/-- reposity_manager.save.

Modelled from the spec: convert_factory / common.models_to_dto (the
serialization of a collection into its stored representation) are not under
src; §6 specifies persistence only at the interface level, so the composite
serialization is an arbitrary encoding `enc` of a collection.  save writes
the document holding `enc` of every key's collection (missing keys serialize
their default []); the file write itself is external (a failed write returns
False without touching the data). -/
def save (enc : List Entity → List Entity) (st : RepoState) :
    Except RepoError (List (String × List Entity)) :=
  if st.file_name == "" then .error .configurationError
  else .ok (keys.map (fun k => (k, enc (st.data.getList k))))

end reposity_manager

/-! ### Attribute-level lemmas -/

theorem find?_setAttrList_same (l : List (String × Value)) (a : String) (v : Value) :
    (setAttrList l a v).find? (fun p => p.1 == a) = some (a, v) := by
  induction l with
  | nil => simp [setAttrList]
  | cons p rest ih =>
      by_cases h : p.1 = a
      · simp [setAttrList, h]
      · simp [setAttrList, h, ih]

theorem find?_setAttrList_ne (l : List (String × Value)) (a b : String) (v : Value)
    (h : a ≠ b) :
    (setAttrList l a v).find? (fun p => p.1 == b) = l.find? (fun p => p.1 == b) := by
  induction l with
  | nil => simp [setAttrList, h]
  | cons p rest ih =>
      have hsplit : setAttrList (p :: rest) a v =
          if p.1 == a then (a, v) :: rest else p :: setAttrList rest a v := rfl
      by_cases hp : p.1 = a
      · rw [hsplit]
        simp only [hp, beq_self_eq_true', if_true]
        rw [List.find?_cons_of_neg _ (by simp [h]),
            List.find?_cons_of_neg _ (by simp [hp, h])]
      · rw [hsplit]
        simp only [beq_iff_eq, hp, if_false]
        by_cases hb : p.1 = b
        · rw [List.find?_cons_of_pos _ (by simp [hb]),
              List.find?_cons_of_pos _ (by simp [hb])]
        · rw [List.find?_cons_of_neg _ (by simp [hb]),
              List.find?_cons_of_neg _ (by simp [hb]), ih]

theorem pyGetattr_pySetattr_same (e : Entity) (a : String) (v : Value) :
    pyGetattr (pySetattr e a v) a = some v := by
  simp [pyGetattr, pySetattr, Entity.attrs, find?_setAttrList_same]

theorem pyGetattr_pySetattr_ne (e : Entity) (a b : String) (v : Value) (h : a ≠ b) :
    pyGetattr (pySetattr e a v) b = pyGetattr e b := by
  cases e with
  | mk l => simp [pyGetattr, pySetattr, Entity.attrs, find?_setAttrList_ne l a b v h]

theorem setAttrList_self (l : List (String × Value)) (a : String) (v : Value)
    (h : l.find? (fun p => p.1 == a) = some (a, v)) : setAttrList l a v = l := by
  induction l with
  | nil => simp at h
  | cons p rest ih =>
      by_cases hp : p.1 = a
      · rw [List.find?_cons_of_pos _ (by simp [hp])] at h
        simp only [Option.some.injEq] at h
        simp [setAttrList, hp, ← h]
      · rw [List.find?_cons_of_neg _ (by simp [hp])] at h
        simp [setAttrList, hp, ih h]

theorem pySetattr_self (e : Entity) (a : String) (v : Value)
    (h : pyGetattr e a = some v) : pySetattr e a v = e := by
  cases e with
  | mk l =>
      simp only [pyGetattr, Entity.attrs, Option.map_eq_some'] at h
      obtain ⟨p, hp, hv⟩ := h
      have hpa : p.1 = a := by
        have := List.find?_some hp
        simpa using this
      cases p with
      | mk p1 p2 =>
          simp only at hpa hv
          subst hpa; subst hv
          simp [pySetattr, Entity.attrs, setAttrList_self l p1 p2 hp]

theorem setAttrList_setAttrList (l : List (String × Value)) (a : String) (v w : Value) :
    setAttrList (setAttrList l a v) a w = setAttrList l a w := by
  induction l with
  | nil => simp [setAttrList]
  | cons p rest ih =>
      by_cases hp : p.1 = a
      · simp [setAttrList, hp]
      · simp [setAttrList, hp, ih]

theorem pySetattr_pySetattr (e : Entity) (a : String) (v w : Value) :
    pySetattr (pySetattr e a v) a w = pySetattr e a w := by
  simp [pySetattr, Entity.attrs, setAttrList_setAttrList]

theorem find?_isSome_setAttrList (l : List (String × Value)) (a b : String) (v : Value) :
    ((setAttrList l a v).find? (fun p => p.1 == b)).isSome =
      ((a == b) || (l.find? (fun p => p.1 == b)).isSome) := by
  by_cases h : a = b
  · subst h
    simp [find?_setAttrList_same]
  · simp [find?_setAttrList_ne l a b v h, h]

theorem pyHasattr_pySetattr (e : Entity) (a b : String) (v : Value) :
    pyHasattr (pySetattr e a v) b = ((a == b) || pyHasattr e b) := by
  simp [pyHasattr, pySetattr, Entity.attrs, find?_isSome_setAttrList]

theorem pyHasattr_iff_pyGetattr (e : Entity) (a : String) :
    pyHasattr e a = (pyGetattr e a).isSome := by
  simp [pyHasattr, pyGetattr]

/-! ### Store-level lemmas -/

theorem Store.getList_nil (k : String) : Store.getList [] k = [] := rfl

theorem Store.getList_cons (p : String × List Entity) (rest : Store) (k : String) :
    Store.getList (p :: rest) k = if p.1 == k then p.2 else Store.getList rest k := by
  by_cases h : p.1 = k
  · simp [Store.getList, List.find?_cons_of_pos, h]
  · rw [Store.getList, List.find?_cons_of_neg _ (by simp [h])]
    simp [Store.getList, h]

theorem Store.setList_cons (p : String × List Entity) (rest : Store) (k : String)
    (l : List Entity) :
    Store.setList (p :: rest) k l =
      if p.1 == k then (k, l) :: rest else p :: Store.setList rest k l := rfl

theorem Store.mapAt_cons (p : String × List Entity) (rest : Store) (k : String)
    (f : Entity → Entity) :
    Store.mapAt (p :: rest) k f =
      (if p.1 == k then (p.1, p.2.map f) else p) :: Store.mapAt rest k f := rfl

theorem Store.putAt_cons (p : String × List Entity) (rest : Store) (k : String)
    (l : List Entity) :
    Store.putAt (p :: rest) k l =
      (if p.1 == k then (p.1, l) else p) :: Store.putAt rest k l := rfl

theorem Store.containsKey_cons (p : String × List Entity) (rest : Store) (k : String) :
    Store.containsKey (p :: rest) k = ((p.1 == k) || Store.containsKey rest k) := by
  by_cases h : p.1 = k
  · simp [Store.containsKey, List.find?_cons_of_pos, h]
  · rw [Store.containsKey, List.find?_cons_of_neg _ (by simp [h])]
    simp [Store.containsKey, h]

theorem Store.getList_setList_same (s : Store) (k : String) (l : List Entity) :
    (s.setList k l).getList k = l := by
  induction s with
  | nil => simp [Store.setList, Store.getList_cons, Store.getList_nil]
  | cons p rest ih =>
      rw [Store.setList_cons]
      by_cases h : p.1 = k
      · simp [h, Store.getList_cons]
      · simp [h, Store.getList_cons, ih]

theorem Store.getList_setList_ne (s : Store) (k k' : String) (l : List Entity)
    (h : k ≠ k') : (s.setList k l).getList k' = s.getList k' := by
  induction s with
  | nil => simp [Store.setList, Store.getList_cons, Store.getList_nil, h]
  | cons p rest ih =>
      rw [Store.setList_cons]
      by_cases hp : p.1 = k
      · have hne : ¬(k = k') := h
        simp [hp, Store.getList_cons, hne]
      · simp only [beq_iff_eq, hp, if_false]
        rw [Store.getList_cons, Store.getList_cons, ih]

theorem Store.getList_mapAt_same (s : Store) (k : String) (f : Entity → Entity) :
    (s.mapAt k f).getList k = (s.getList k).map f := by
  induction s with
  | nil => simp [Store.mapAt, Store.getList_nil]
  | cons p rest ih =>
      rw [Store.mapAt_cons]
      by_cases h : p.1 = k
      · simp [h, Store.getList_cons]
      · simp [h, Store.getList_cons, ih]

theorem Store.getList_mapAt_ne (s : Store) (k k' : String) (f : Entity → Entity)
    (h : k ≠ k') : (s.mapAt k f).getList k' = s.getList k' := by
  induction s with
  | nil => simp [Store.mapAt, Store.getList_nil]
  | cons p rest ih =>
      rw [Store.mapAt_cons]
      by_cases hp : p.1 = k
      · simp [hp, Store.getList_cons, h, ih]
      · simp only [beq_iff_eq, hp, if_false]
        rw [Store.getList_cons, Store.getList_cons, ih]

theorem Store.getList_putAt_ne (s : Store) (k k' : String) (l : List Entity)
    (h : k ≠ k') : (s.putAt k l).getList k' = s.getList k' := by
  induction s with
  | nil => simp [Store.putAt, Store.getList_nil]
  | cons p rest ih =>
      rw [Store.putAt_cons]
      by_cases hp : p.1 = k
      · simp [hp, Store.getList_cons, h, ih]
      · simp only [beq_iff_eq, hp, if_false]
        rw [Store.getList_cons, Store.getList_cons, ih]

theorem Store.getList_putAt_contains (s : Store) (k : String) (l : List Entity)
    (h : s.containsKey k = true) : (s.putAt k l).getList k = l := by
  induction s with
  | nil => exact absurd h (by simp [Store.containsKey])
  | cons p rest ih =>
      rw [Store.containsKey_cons, Bool.or_eq_true] at h
      rw [Store.putAt_cons]
      by_cases hp : p.1 = k
      · simp [hp, Store.getList_cons]
      · simp only [beq_iff_eq, hp, if_false]
        rw [Store.getList_cons]
        simp only [beq_iff_eq, hp, if_false]
        rcases h with h | h
        · exact absurd (by simpa using h) hp
        · exact ih h

theorem Store.getList_putAt_not_contains (s : Store) (k : String) (l : List Entity)
    (h : s.containsKey k = false) :
    (s.putAt k l).getList k = [] ∧ s.getList k = [] := by
  induction s with
  | nil => simp [Store.putAt, Store.getList_nil]
  | cons p rest ih =>
      rw [Store.containsKey_cons] at h
      simp only [Bool.or_eq_false_iff] at h
      obtain ⟨h1, h2⟩ := h
      have hp : ¬(p.1 = k) := by simpa using h1
      rw [Store.putAt_cons]
      simp only [beq_iff_eq, hp, if_false]
      rw [Store.getList_cons, Store.getList_cons]
      simp only [beq_iff_eq, hp, if_false]
      exact ih h2

theorem Store.setList_setList (s : Store) (k : String) (a b : List Entity) :
    (s.setList k a).setList k b = s.setList k b := by
  induction s with
  | nil => simp [Store.setList]
  | cons p rest ih =>
      rw [Store.setList_cons]
      by_cases h : p.1 = k
      · simp [Store.setList_cons, h]
      · simp [Store.setList_cons, h, ih]

theorem Store.setList_getList_self (s : Store) (k : String)
    (h : s.containsKey k = true) : s.setList k (s.getList k) = s := by
  induction s with
  | nil => exact absurd h (by simp [Store.containsKey])
  | cons p rest ih =>
      obtain ⟨p1, p2⟩ := p
      rw [Store.containsKey_cons, Bool.or_eq_true] at h
      rw [Store.getList_cons, Store.setList_cons]
      by_cases hp : p1 = k
      · subst hp
        simp
      · simp only [beq_iff_eq, hp, if_false]
        rcases h with h | h
        · exact absurd (by simpa using h) hp
        · rw [ih h]

/-! ### Fold lemmas over key lists -/

theorem getList_foldl_setList_not_mem (ks : List String) (g : String → List Entity)
    (s : Store) (k : String) (h : k ∉ ks) :
    (ks.foldl (fun acc kk => acc.setList kk (g kk)) s).getList k = s.getList k := by
  induction ks generalizing s with
  | nil => rfl
  | cons a rest ih =>
      simp only [List.foldl]
      have hka : a ≠ k := fun hh => h (hh ▸ List.mem_cons_self a rest)
      rw [ih _ (fun hm => h (List.mem_cons_of_mem a hm)),
          Store.getList_setList_ne _ _ _ _ hka]

theorem getList_foldl_setList_mem (ks : List String) (g : String → List Entity)
    (s : Store) (k : String) (h : k ∈ ks) (hnd : ks.Nodup) :
    (ks.foldl (fun acc kk => acc.setList kk (g kk)) s).getList k = g k := by
  induction ks generalizing s with
  | nil => cases h
  | cons a rest ih =>
      simp only [List.foldl]
      rcases List.mem_cons.mp h with rfl | hm
      · rw [getList_foldl_setList_not_mem rest g _ k (List.nodup_cons.mp hnd).1,
            Store.getList_setList_same]
      · exact ih _ hm (List.nodup_cons.mp hnd).2

theorem getList_foldl_mapAt_not_mem (ks : List String) (g : String → Entity → Entity)
    (s : Store) (k : String) (h : k ∉ ks) :
    (ks.foldl (fun acc kk => acc.mapAt kk (g kk)) s).getList k = s.getList k := by
  induction ks generalizing s with
  | nil => rfl
  | cons a rest ih =>
      simp only [List.foldl]
      have hka : a ≠ k := fun hh => h (hh ▸ List.mem_cons_self a rest)
      rw [ih _ (fun hm => h (List.mem_cons_of_mem a hm)),
          Store.getList_mapAt_ne _ _ _ _ hka]

theorem getList_foldl_mapAt_mem (ks : List String) (g : String → Entity → Entity)
    (s : Store) (k : String) (h : k ∈ ks) (hnd : ks.Nodup) :
    (ks.foldl (fun acc kk => acc.mapAt kk (g kk)) s).getList k = (s.getList k).map (g k) := by
  induction ks generalizing s with
  | nil => cases h
  | cons a rest ih =>
      simp only [List.foldl]
      rcases List.mem_cons.mp h with rfl | hm
      · rw [getList_foldl_mapAt_not_mem rest g _ k (List.nodup_cons.mp hnd).1,
            Store.getList_mapAt_same]
      · have hak : a ≠ k := fun hh => (List.nodup_cons.mp hnd).1 (hh ▸ hm)
        rw [ih _ hm (List.nodup_cons.mp hnd).2, Store.getList_mapAt_ne _ _ _ _ hak]

/-! ### Document lemmas for reposity_manager -/

namespace reposity_manager

theorem docFind_cons (p : String × List Entity) (rest : List (String × List Entity))
    (k : String) :
    docFind (p :: rest) k = if p.1 == k then some p.2 else docFind rest k := by
  by_cases h : p.1 = k
  · simp [docFind, List.find?_cons_of_pos, h]
  · rw [docFind, List.find?_cons_of_neg _ (by simp [h])]
    simp [docFind, h]

theorem docGet_eq_docFind (d : List (String × List Entity)) (k : String) :
    docGet d k = (docFind d k).getD [] := rfl

theorem docFind_map_self (ks : List String) (g : String → List Entity) (k : String)
    (h : k ∈ ks) :
    docFind (ks.map (fun kk => (kk, g kk))) k = some (g k) := by
  induction ks with
  | nil => cases h
  | cons a rest ih =>
      simp only [List.map]
      rw [docFind_cons]
      by_cases hak : a = k
      · simp [hak]
      · simp only [beq_iff_eq, hak, if_false]
        exact ih (List.mem_cons.mp h |>.resolve_left (fun hh => hak hh.symm))

theorem keys_nodup : keys.Nodup := by decide

/-- C7: load fails with ConfigurationError when no backing path is configured,
with FormatError when the backing content is not well-formed, and a missing
backing resource is not an error: every collection of the closed key set is
initialized to empty and False ("not loaded") is returned. -/
theorem c7_load_failure_modes (st : RepoState) (file : FileContent) :
    (st.file_name = "" → load st file = .error .configurationError) ∧
    (st.file_name ≠ "" → load st .malformed = .error .formatError) ∧
    (st.file_name ≠ "" →
      ∃ st', load st .missing = .ok (st', false) ∧
        ∀ k ∈ keys, st'.data.getList k = []) := by
  refine ⟨fun h => ?_, fun h => ?_, fun h => ?_⟩
  · simp [load, h]
  · simp [load, h]
  · refine ⟨{ st with data := initalize st.data }, by simp [load, h], fun k hk => ?_⟩
    simpa [initalize] using
      getList_foldl_setList_mem keys (fun _ => []) st.data k hk keys_nodup

/-- C7 witness. -/
theorem c7_load_failure_modes_witness :
    (load { file_name := "", data := [] } .missing = .error .configurationError) ∧
    (load { file_name := "f", data := [] } .malformed = .error .formatError) ∧
    (∃ st', load { file_name := "f", data := [("bogus", [])] } .missing = .ok (st', false) ∧
      ∀ k ∈ keys, st'.data.getList k = []) :=
  ⟨(c7_load_failure_modes { file_name := "", data := [] } .missing).1 rfl,
   (c7_load_failure_modes { file_name := "f", data := [] } .malformed).2.1 (by decide),
   (c7_load_failure_modes { file_name := "f", data := [("bogus", [])] } .missing).2.2
     (by decide)⟩

/-- C5: save followed by load into a fresh repository reproduces, for every
key of the closed key set, the collection's serialized image (an equivalent
set of entities, recoverable whenever the encoding is injective); save
serializes every key even when its collection is empty, and load populates
every key, defaulting entries missing from the backing document to empty. -/
theorem c5_save_load_round_trip (enc : List Entity → List Entity)
    (st st0 : RepoState) (doc : List (String × List Entity))
    (h1 : st.file_name ≠ "") (h2 : st0.file_name ≠ "")
    (hsave : save enc st = .ok doc) :
    (∀ k ∈ keys, docFind doc k = some (enc (st.data.getList k))) ∧
    (∃ st', load st0 (.doc doc) = .ok (st', true) ∧
      ∀ k ∈ keys, st'.data.getList k = enc (st.data.getList k)) ∧
    (∀ d k, k ∈ keys → docFind d k = none →
      ∃ st'', load st0 (.doc d) = .ok (st'', true) ∧ st''.data.getList k = []) := by
  have hdoc : doc = keys.map (fun k => (k, enc (st.data.getList k))) := by
    unfold save at hsave
    rw [if_neg (by simpa using h1)] at hsave
    exact ((Except.ok.injEq _ _).mp hsave).symm
  refine ⟨fun k hk => ?_, ?_, fun d k hk hnone => ?_⟩
  · rw [hdoc, docFind_map_self _ _ _ hk]
  · refine ⟨{ st0 with
        data := keys.foldl (fun acc k => acc.setList k (docGet doc k)) st0.data },
      by simp [load, h2], fun k hk => ?_⟩
    rw [getList_foldl_setList_mem keys _ st0.data k hk keys_nodup,
        docGet_eq_docFind, hdoc, docFind_map_self _ _ _ hk]
    rfl
  · refine ⟨{ st0 with
        data := keys.foldl (fun acc k => acc.setList k (docGet d k)) st0.data },
      by simp [load, h2], ?_⟩
    rw [getList_foldl_setList_mem keys _ st0.data k hk keys_nodup,
        docGet_eq_docFind, hnone]
    rfl

/-- A concrete repository state for the C5 witness. -/
def c5State : RepoState :=
  { file_name := "f",
    data := [("range_model", [Entity.mk [("unique_code", .str "r1")]])] }

/-- The document save writes for that state. -/
def c5Doc : List (String × List Entity) :=
  keys.map (fun k => (k, c5State.data.getList k))

/-- C5 witness. -/
theorem c5_save_load_round_trip_witness :
    docFind c5Doc "range_model" = some [Entity.mk [("unique_code", .str "r1")]] := by
  have h := (c5_save_load_round_trip id c5State { file_name := "g", data := [] }
    c5Doc (by decide) (by decide) rfl).1 "range_model" (by decide)
  simpa using h

end reposity_manager

namespace reference_service

/-- Every resolvable kind lands in one of the four reference collections. -/
theorem map_type_key_cases (rt key : String)
    (h : map_type_to_repo_key rt = .ok key) :
    key = "nomenclature_model" ∨ key = "range_model" ∨ key = "group_model" ∨
      key = "storage_key" := by
  unfold map_type_to_repo_key at h
  split_ifs at h <;> simp only [Except.ok.injEq] at h <;> tauto

/-- C9: update and delete of an id absent from the resolved collection fail
with NotFoundError and leave the repository exactly as it was. -/
theorem c9_not_found_unchanged (s : Store) (rt item_id key : String)
    (payload : List (String × Value))
    (hkey : map_type_to_repo_key rt = .ok key)
    (habsent : ∀ e ∈ s.getList key, ¬(Entity.uc e = some item_id)) :
    update s rt item_id payload = (.error (.notFound item_id rt), s) ∧
    delete s rt item_id = (.error (.notFound item_id rt), s) := by
  have hfind : (s.getList key).find? (fun x => Entity.uc x == some item_id) = none :=
    List.find?_eq_none.mpr (fun x hx => by simpa using habsent x hx)
  constructor
  · unfold update
    rw [hkey]
    simp [hfind]
  · unfold delete
    rw [hkey]
    simp [hfind]

/-- C9 witness. -/
theorem c9_not_found_unchanged_witness :
    update [("range_model", [Entity.mk [("unique_code", .str "r1")]])]
        "range" "zz" [("name", .str "x")] =
      (.error (.notFound "zz" "range"),
       [("range_model", [Entity.mk [("unique_code", .str "r1")]])]) ∧
    delete [("range_model", [Entity.mk [("unique_code", .str "r1")]])] "range" "zz" =
      (.error (.notFound "zz" "range"),
       [("range_model", [Entity.mk [("unique_code", .str "r1")]])]) :=
  c9_not_found_unchanged _ "range" "zz" "range_model" _ rfl (by decide)

/-- C10 counterexample: the empty string is an id that is present in no
collection, yet get("range", "") returns the whole (non-empty) collection
rather than an empty list — `if item_id:` treats "" like no id at all. -/
theorem c10_counterexample :
    get [("range_model", [Entity.mk [("unique_code", .str "r1")]])] "range" (some "") =
      .ok [Entity.mk [("unique_code", .str "r1")]] ∧
    ¬(Entity.uc (Entity.mk [("unique_code", .str "r1")]) = some "") ∧
    get [("range_model", [Entity.mk [("unique_code", .str "r1")]])] "range" (some "") ≠
      .ok [] := by
  refine ⟨rfl, by decide, fun h => ?_⟩
  rw [show get [("range_model", [Entity.mk [("unique_code", .str "r1")]])] "range"
        (some "") = .ok [Entity.mk [("unique_code", .str "r1")]] from rfl] at h
  simp at h

/-- C10 (amended): for every valid kind and every NON-EMPTY id absent from
the kind's collection, get returns an empty list and no error; the empty
string id is treated as "no id given" and returns the whole collection. -/
theorem c10_amended_get_absent_empty (s : Store) (rt item_id key : String)
    (hkey : map_type_to_repo_key rt = .ok key) (hne : item_id ≠ "")
    (habsent : ∀ e ∈ s.getList key, ¬(Entity.uc e = some item_id)) :
    get s rt (some item_id) = .ok [] := by
  unfold get
  rw [hkey]
  have h1 : (s.getList key).filter (fun x => Entity.uc x == some item_id) = [] :=
    List.filter_eq_nil_iff.mpr (fun x hx => by simp [habsent x hx])
  simp [hne, h1]

/-- C10 witness. -/
theorem c10_amended_get_absent_empty_witness :
    get [("range_model", [Entity.mk [("unique_code", .str "r1")]])] "range"
      (some "zz") = .ok [] :=
  c10_amended_get_absent_empty _ "range" "zz" "range_model" rfl (by decide) (by decide)

/-- C3 counterexample: an entity with unique_code "A" is already stored, yet
add of another entity with the same unique_code succeeds and extends the
collection — no DuplicateKeyError is raised anywhere in add. -/
theorem c3_counterexample :
    Entity.uc (Entity.mk [("unique_code", .str "A"), ("name", .str "first")]) =
      some "A" ∧
    Entity.uc (Entity.mk [("unique_code", .str "A"), ("name", .str "second")]) =
      some "A" ∧
    (add [("storage_key", [Entity.mk [("unique_code", .str "A"), ("name", .str "first")]])]
        "storage" (Entity.mk [("unique_code", .str "A"), ("name", .str "second")])).1 =
      .ok (Entity.mk [("unique_code", .str "A"), ("name", .str "second")],
           ["reference_added"]) ∧
    ((add [("storage_key", [Entity.mk [("unique_code", .str "A"), ("name", .str "first")]])]
        "storage" (Entity.mk [("unique_code", .str "A"), ("name", .str "second")])).2).getList
      "storage_key" =
      [Entity.mk [("unique_code", .str "A"), ("name", .str "first")],
       Entity.mk [("unique_code", .str "A"), ("name", .str "second")]] :=
  ⟨rfl, rfl, rfl, rfl⟩

/-- C3 (amended): add performs no duplicate check at all: for every kind
whose construction branch is recognized, add appends the constructed entity
and succeeds even when an entity with the same unique_code already exists,
and the collection is extended by exactly that entity. -/
theorem c3_amended_add_never_checks_duplicates (s : Store) (rt : String) (e : Entity)
    (key : String) (hkey : map_type_to_repo_key rt = .ok key)
    (hbranch : add_branch_ok (normaliseType rt) = true) :
    (add s rt e).1 = .ok (e, ["reference_added"]) ∧
    ((add s rt e).2).getList key = s.getList key ++ [e] := by
  constructor
  · unfold add
    rw [hkey]
    simp [hbranch]
  · unfold add
    rw [hkey]
    simp [hbranch, Store.getList_setList_same]

/-- C3 amended witness. -/
theorem c3_amended_witness :
    (add [("storage_key", [Entity.mk [("unique_code", .str "A")]])] "storage"
        (Entity.mk [("unique_code", .str "A")])).1 =
      .ok (Entity.mk [("unique_code", .str "A")], ["reference_added"]) ∧
    ((add [("storage_key", [Entity.mk [("unique_code", .str "A")]])] "storage"
        (Entity.mk [("unique_code", .str "A")])).2).getList "storage_key" =
      [Entity.mk [("unique_code", .str "A")], Entity.mk [("unique_code", .str "A")]] :=
  c3_amended_add_never_checks_duplicates _ "storage" _ "storage_key" rfl (by decide)

/-- C8: after a successful add of a fresh entity (a generated, non-empty
unique_code not yet present in the target collection), get of that id
returns exactly one entity, equal to the entity add returned.

Modelled from the spec for the construction step: the Models/Dtos packages
are not under src, so the entity constructed by <kind>_model.from_dto is
taken as given; freshness of its generated unique_code is the hypothesis. -/
theorem c8_add_then_get (s : Store) (rt : String) (e : Entity) (key uid : String)
    (hkey : map_type_to_repo_key rt = .ok key)
    (hbranch : add_branch_ok (normaliseType rt) = true)
    (huc : Entity.uc e = some uid) (hne : uid ≠ "")
    (hfresh : ∀ x ∈ s.getList key, ¬(Entity.uc x = some uid)) :
    (add s rt e).1 = .ok (e, ["reference_added"]) ∧
    get (add s rt e).2 rt (some uid) = .ok [e] := by
  constructor
  · unfold add
    rw [hkey]
    simp [hbranch]
  · unfold add
    rw [hkey]
    simp only [hbranch, if_true]
    unfold get
    rw [hkey]
    simp only [Store.getList_setList_same]
    have h1 : (s.getList key).filter (fun x => Entity.uc x == some uid) = [] :=
      List.filter_eq_nil_iff.mpr (fun x hx => by simp [hfresh x hx])
    have h2 : [e].filter (fun x => Entity.uc x == some uid) = [e] := by
      simp [List.filter, huc]
    simp [hne, List.filter_append, h1, h2]

/-- C8 witness. -/
theorem c8_add_then_get_witness :
    (add [("range_model", [Entity.mk [("unique_code", .str "r1")]])] "range"
        (Entity.mk [("unique_code", .str "r2")])).1 =
      .ok (Entity.mk [("unique_code", .str "r2")], ["reference_added"]) ∧
    get (add [("range_model", [Entity.mk [("unique_code", .str "r1")]])] "range"
        (Entity.mk [("unique_code", .str "r2")])).2 "range" (some "r2") =
      .ok [Entity.mk [("unique_code", .str "r2")]] :=
  c8_add_then_get _ "range" _ "range_model" "r2" rfl (by decide) (by decide) (by decide)
    (by decide)

/-- C4 counterexample: a delete whose built-in scan finds no match removes
the entity and publishes only "reference_deleted" — no
reference_delete_validation event is ever published before the removal, so
no subscriber can veto it. -/
theorem c4_counterexample :
    (delete [("range_model", [Entity.mk [("unique_code", .str "r1")]])] "range" "r1").1 =
      .ok ["reference_deleted"] ∧
    ((delete [("range_model", [Entity.mk [("unique_code", .str "r1")]])] "range"
        "r1").2).getList "range_model" = [] ∧
    ¬("reference_delete_validation" ∈ ["reference_deleted"]) :=
  ⟨rfl, rfl, by decide⟩

/-- C4 (amended): whenever delete succeeds, the only event it publishes is
"reference_deleted" (after the removal): the reference_delete_validation
event does not exist in this service, so no subscriber veto point beyond the
built-in dependency scan is ever exercised. -/
theorem c4_amended_no_validation_event (s : Store) (rt item_id : String)
    (evs : List String) (h : (delete s rt item_id).1 = .ok evs) :
    evs = ["reference_deleted"] ∧ ¬("reference_delete_validation" ∈ evs) := by
  cases hmap : map_type_to_repo_key rt with
  | error er =>
      unfold delete at h
      rw [hmap] at h
      simp at h
  | ok key =>
      unfold delete at h
      rw [hmap] at h
      dsimp only at h
      cases hfind : (s.getList key).find? (fun x => Entity.uc x == some item_id) with
      | none =>
          rw [hfind] at h
          simp at h
      | some t =>
          rw [hfind] at h
          by_cases hdeps : (is_used_elsewhere s item_id (some key)).isEmpty = true
          · simp only [hdeps, if_true] at h
            simp only [Except.ok.injEq] at h
            subst h
            exact ⟨rfl, by decide⟩
          · simp only [Bool.not_eq_true] at hdeps
            simp [hdeps] at h

/-- C4 amended witness. -/
theorem c4_amended_no_validation_event_witness :
    ((delete [("range_model", [Entity.mk [("unique_code", .str "r1")]])] "range"
        "r1").1 = .ok ["reference_deleted"]) ∧
    ¬("reference_delete_validation" ∈ ["reference_deleted"]) :=
  ⟨rfl, (c4_amended_no_validation_event
      [("range_model", [Entity.mk [("unique_code", .str "r1")]])] "range" "r1"
      ["reference_deleted"] rfl).2⟩

end reference_service

namespace reference_service

/-- Does a composition/transaction entry of a list-valued attribute refer to
the id (§3 data model): a dict entry through its nomenclature_id, an object
entry through its unique_code. -/
def subEntryRefs (item_id : String) : Value → Bool
  | .dct d => dctGet d "nomenclature_id" == some item_id
  | .ent e => Entity.uc e == some item_id
  | _ => false

/-- Does one reference-bearing attribute value hold a reference to the id:
an embedded entity with that unique_code, a bare identifier string equal to
it, or a composition list with a referring entry. -/
def valueRefs (item_id : String) : Value → Bool
  | .lst subs => subs.any (subEntryRefs item_id)
  | .ent e => Entity.uc e == some item_id
  | .str sv => sv == item_id
  | .dct _ => false

/-- Does a holder refer to the id through any of the fixed reference-bearing
attributes (the scalar reference fields and the list-typed composition
fields scanned by _is_used_elsewhere). -/
def holderRefers (obj : Entity) (item_id : String) : Bool :=
  (scalarAttrs ++ compositionAttrs).any (fun a =>
    match pyGetattr obj a with
    | some v => valueRefs item_id v
    | none => false)

theorem valueDeps_ne_nil_of_refs (key : String) (cont : Entity) (attr item_id : String)
    (v : Value) (h : valueRefs item_id v = true) :
    valueDeps key cont attr item_id v ≠ [] := by
  cases v with
  | lst subs =>
      simp only [valueRefs, List.any_eq_true] at h
      obtain ⟨sub, hmem, href⟩ := h
      cases sub with
      | dct d =>
          simp only [subEntryRefs] at href
          apply List.ne_nil_of_mem (a := ⟨key, cont, attr, .dct d⟩)
          unfold valueDeps
          exact List.mem_filterMap.mpr ⟨.dct d, hmem, by simp [href]⟩
      | ent e =>
          simp only [subEntryRefs] at href
          apply List.ne_nil_of_mem (a := ⟨key, cont, attr, .ent e⟩)
          unfold valueDeps
          exact List.mem_filterMap.mpr ⟨.ent e, hmem, by simp [href]⟩
      | str sv => simp [subEntryRefs] at href
      | lst l => simp [subEntryRefs] at href
  | ent e =>
      simp only [valueRefs] at h
      simp [valueDeps, h]
  | str sv =>
      simp only [valueRefs] at h
      simp [valueDeps, h]
  | dct d => simp [valueRefs] at h

theorem is_used_elsewhere_ne_nil (s : Store) (item_id k key : String)
    (arr : List Entity) (obj : Entity)
    (hmem : (k, arr) ∈ s) (hne : k ≠ key) (hobj : obj ∈ arr)
    (href : holderRefers obj item_id = true) :
    is_used_elsewhere s item_id (some key) ≠ [] := by
  simp only [holderRefers, List.any_eq_true] at href
  obtain ⟨a, ha, hv⟩ := href
  rcases hget : pyGetattr obj a with _ | v
  · rw [hget] at hv
    cases hv
  · rw [hget] at hv
    have hmemA : a ∈ objCandidateAttrs obj := by
      rcases List.mem_append.mp ha with h1 | h2
      · exact List.mem_append_left _ h1
      · exact List.mem_append_right _
          (List.mem_filter.mpr ⟨h2, by simp [hget]⟩)
    have hdep := valueDeps_ne_nil_of_refs k obj a item_id v hv
    obtain ⟨d, hd⟩ := List.exists_mem_of_ne_nil _ hdep
    apply List.ne_nil_of_mem (a := d)
    unfold is_used_elsewhere
    rw [List.mem_flatMap]
    refine ⟨(k, arr), List.mem_filter.mpr ⟨hmem, ?_⟩, ?_⟩
    · simp [Ne.symm hne]
    · rw [List.mem_flatMap]
      refine ⟨obj, hobj, ?_⟩
      rw [List.mem_flatMap]
      refine ⟨a, hmemA, ?_⟩
      rw [hget]
      exact hd

/-- C1: deleting an entity whose id is referenced by a composition or
transaction-like entry in any collection other than its own fails with
ReferentialIntegrityError (carrying the first few conflicting holders) and
leaves every repository collection exactly as it was — no partial deletion. -/
theorem c1_delete_blocked (s : Store) (rt item_id key k : String)
    (arr : List Entity) (obj : Entity)
    (hkey : map_type_to_repo_key rt = .ok key)
    (htarget : ((s.getList key).find? (fun x => Entity.uc x == some item_id)).isSome
      = true)
    (hmem : (k, arr) ∈ s) (hne : k ≠ key) (hobj : obj ∈ arr)
    (href : holderRefers obj item_id = true) :
    (∃ deps, (delete s rt item_id).1 =
        .error (.referentialIntegrity rt item_id deps)) ∧
    (delete s rt item_id).2 = s := by
  have hused := is_used_elsewhere_ne_nil s item_id k key arr obj hmem hne hobj href
  have hemp : (is_used_elsewhere s item_id (some key)).isEmpty = false :=
    List.isEmpty_eq_false.mpr hused
  unfold delete
  rw [hkey]
  dsimp only
  rcases hfind : (s.getList key).find? (fun x => Entity.uc x == some item_id)
    with _ | t
  · rw [hfind] at htarget
    cases htarget
  · simp [hemp]

/-- C1 witness: a nomenclature referenced from a receipt's composition. -/
theorem c1_delete_blocked_witness :
    (∃ deps,
      (delete
        [("nomenclature_model", [Entity.mk [("unique_code", .str "n1")]]),
         ("receipt_model",
          [Entity.mk [("unique_code", .str "rec1"),
                      ("composition", .lst [.dct [("nomenclature_id", "n1")]])]])]
        "nomenclature" "n1").1 =
      .error (.referentialIntegrity "nomenclature" "n1" deps)) ∧
    (delete
        [("nomenclature_model", [Entity.mk [("unique_code", .str "n1")]]),
         ("receipt_model",
          [Entity.mk [("unique_code", .str "rec1"),
                      ("composition", .lst [.dct [("nomenclature_id", "n1")]])]])]
        "nomenclature" "n1").2 =
      [("nomenclature_model", [Entity.mk [("unique_code", .str "n1")]]),
       ("receipt_model",
        [Entity.mk [("unique_code", .str "rec1"),
                    ("composition", .lst [.dct [("nomenclature_id", "n1")]])]])] :=
  c1_delete_blocked _ "nomenclature" "n1" "nomenclature_model" "receipt_model"
    _ _ rfl rfl (List.Mem.tail _ (List.Mem.head _)) (by decide)
    (List.Mem.head _) rfl

end reference_service

namespace reference_service

/-- The range (measurement unit) entity before the C2 update. -/
def c2Target : Entity := .mk [("unique_code", .str "r1"), ("name", .str "Old")]

/-- A nomenclature entity embedding c2Target as its unit.  The nomenclature
collection is a reference collection outside _all_possible_repo_keys: the
cascade never visits it, and it is not a derived collection any recompute
would rebuild. -/
def c2Holder : Entity :=
  .mk [("unique_code", .str "n1"), ("unit", .ent c2Target)]

def c2Store : Store :=
  [("range_model", [c2Target]), ("nomenclature_model", [c2Holder])]

/-- C2 counterexample: updating the unit renames it to "New" on the target,
but the nomenclature entity keeps its embedded unit copy with name "Old" — a
stale copy survives in a reference collection the cascade does not visit,
refuting "every holder in every other collection". -/
theorem c2_counterexample :
    (update c2Store "range" "r1" [("name", .str "New")]).1 =
      .ok (Entity.mk [("unique_code", .str "r1"), ("name", .str "New")],
           ["reference_updated"]) ∧
    ((update c2Store "range" "r1" [("name", .str "New")]).2).getList
        "nomenclature_model" = [c2Holder] ∧
    pyGetattr c2Holder "unit" = some (.ent c2Target) ∧
    getStrAttr c2Target "name" = some "Old" ∧
    ¬(c2Target = Entity.mk [("unique_code", .str "r1"), ("name", .str "New")]) := by
  refine ⟨rfl, rfl, rfl, rfl, fun h => ?_⟩
  have := congrArg (fun e => getStrAttr e "name") h
  simp only [show getStrAttr c2Target "name" = some "Old" from rfl] at this
  rw [show getStrAttr (Entity.mk [("unique_code", .str "r1"),
      ("name", .str "New")]) "name" = some "New" from rfl] at this
  exact absurd (Option.some.inj this) (by decide)

end reference_service

namespace reference_service

/-! ### Cascade step lemmas (no stale embedded copies) -/

/-- The embedded reference attributes the cascade rewrites on direct holders
and composition items. -/
def refAttrs : List String := ["nomenclature", "unit", "storage"]

/-- After the cascade, a holder carries no stale embedded copy: every
embedded entity under a reference attribute that matches the id IS the
updated entity. -/
def noStale (item_id : String) (upd : Entity) (t : Entity) : Prop :=
  ∀ a ∈ refAttrs, ∀ n : Entity,
    pyGetattr t a = some (.ent n) → Entity.uc n = some item_id → n = upd

theorem pyGetattr_updEmbeddedAttr_ne (e : Entity) (a b item_id : String)
    (upd : Entity) (hne : a ≠ b) :
    pyGetattr (updEmbeddedAttr e a item_id upd) b = pyGetattr e b := by
  rcases h : pyGetattr e a with _ | v
  · unfold updEmbeddedAttr
    rw [h]
  · unfold updEmbeddedAttr
    rw [h]
    cases v with
    | ent n =>
        dsimp only
        by_cases hm : (Entity.uc n == some item_id) = true
        · rw [if_pos hm]
          exact pyGetattr_pySetattr_ne _ _ _ _ hne
        · rw [if_neg hm]
    | str s1 => rfl
    | dct d => rfl
    | lst l => rfl

theorem updEmbeddedAttr_noStale_at (e : Entity) (a item_id : String) (upd n : Entity)
    (h : pyGetattr (updEmbeddedAttr e a item_id upd) a = some (.ent n))
    (huc : Entity.uc n = some item_id) : n = upd := by
  unfold updEmbeddedAttr at h
  rcases hg : pyGetattr e a with _ | v
  all_goals rw [hg] at h
  · exact absurd (hg ▸ h) (by simp)
  · cases v with
    | ent m =>
        dsimp only at h
        by_cases hm : (Entity.uc m == some item_id) = true
        · rw [if_pos hm, pyGetattr_pySetattr_same] at h
          exact (Value.ent.inj (Option.some.inj h)).symm
        · rw [if_neg hm, hg] at h
          have hmn : m = n := Value.ent.inj (Option.some.inj h)
          exact absurd (by simp [hmn, huc]) hm
    | str s1 =>
        dsimp only at h
        rw [hg] at h
        cases h
    | dct d =>
        dsimp only at h
        rw [hg] at h
        cases h
    | lst l =>
        dsimp only at h
        rw [hg] at h
        cases h

theorem pyGetattr_idStepT_ne (item_id : String) (upd t1 : Entity) (b : String)
    (hb1 : b ≠ "nomenclature") (hb2 : b ≠ "nomenclature_id") :
    pyGetattr (idStepT item_id upd t1) b = pyGetattr t1 b := by
  rcases h : pyGetattr t1 "nomenclature_id" with _ | v
  · unfold idStepT
    rw [h]
  · unfold idStepT
    rw [h]
    cases v with
    | str s1 =>
        dsimp only
        by_cases hc : (!(s1 == "") && s1 == item_id) = true
        · rw [if_pos hc]
          cases hu : Entity.uc upd with
          | some u =>
              rw [pyGetattr_pySetattr_ne _ _ _ _ (fun hh => hb2 hh.symm),
                  pyGetattr_pySetattr_ne _ _ _ _ (fun hh => hb1 hh.symm)]
          | none =>
              rw [pyGetattr_pySetattr_ne _ _ _ _ (fun hh => hb1 hh.symm)]
        · rw [if_neg hc]
    | ent m => rfl
    | dct d => rfl
    | lst l => rfl

theorem idStepT_nomenclature (item_id : String) (upd t1 : Entity) :
    pyGetattr (idStepT item_id upd t1) "nomenclature" = some (.ent upd) ∨
    pyGetattr (idStepT item_id upd t1) "nomenclature" =
      pyGetattr t1 "nomenclature" := by
  rcases h : pyGetattr t1 "nomenclature_id" with _ | v
  · right
    unfold idStepT
    rw [h]
  · unfold idStepT
    rw [h]
    cases v with
    | str s1 =>
        dsimp only
        by_cases hc : (!(s1 == "") && s1 == item_id) = true
        · left
          rw [if_pos hc]
          cases hu : Entity.uc upd with
          | some u =>
              rw [pyGetattr_pySetattr_ne _ _ _ _ (by decide),
                  pyGetattr_pySetattr_same]
          | none => rw [pyGetattr_pySetattr_same]
        · right
          rw [if_neg hc]
    | ent m => right; rfl
    | dct d => right; rfl
    | lst l => right; rfl

theorem pyGetattr_idStepB_ne (item_id : String) (upd b1 : Entity) (b : String)
    (hb1 : b ≠ "nomenclature") :
    pyGetattr (idStepB item_id upd b1) b = pyGetattr b1 b := by
  rcases h : pyGetattr b1 "nomenclature_id" with _ | v
  · unfold idStepB
    rw [h]
  · unfold idStepB
    rw [h]
    cases v with
    | str s1 =>
        dsimp only
        by_cases hc : (!(s1 == "") && s1 == item_id) = true
        · rw [if_pos hc]
          exact pyGetattr_pySetattr_ne _ _ _ _ (fun hh => hb1 hh.symm)
        · rw [if_neg hc]
    | ent m => rfl
    | dct d => rfl
    | lst l => rfl

theorem idStepB_nomenclature (item_id : String) (upd b1 : Entity) :
    pyGetattr (idStepB item_id upd b1) "nomenclature" = some (.ent upd) ∨
    pyGetattr (idStepB item_id upd b1) "nomenclature" =
      pyGetattr b1 "nomenclature" := by
  rcases h : pyGetattr b1 "nomenclature_id" with _ | v
  · right
    unfold idStepB
    rw [h]
  · unfold idStepB
    rw [h]
    cases v with
    | str s1 =>
        dsimp only
        by_cases hc : (!(s1 == "") && s1 == item_id) = true
        · left
          rw [if_pos hc]
          exact pyGetattr_pySetattr_same _ _ _
        · right
          rw [if_neg hc]
    | ent m => right; rfl
    | dct d => right; rfl
    | lst l => right; rfl

/-- A transaction holder carries no stale embedded copy after its pass. -/
theorem updTransaction_noStale (item_id : String) (upd t : Entity) :
    noStale item_id upd (updTransaction item_id upd t) := by
  intro a ha n h huc
  simp only [refAttrs, List.mem_cons, List.not_mem_nil, or_false] at ha
  unfold updTransaction at h
  rcases ha with rfl | rfl | rfl
  · rw [pyGetattr_updEmbeddedAttr_ne _ _ _ _ _ (by decide),
        pyGetattr_updEmbeddedAttr_ne _ _ _ _ _ (by decide)] at h
    rcases idStepT_nomenclature item_id upd
        (updEmbeddedAttr t "nomenclature" item_id upd) with hi | hi
    · rw [hi] at h
      exact (Value.ent.inj (Option.some.inj h)).symm
    · rw [hi] at h
      exact updEmbeddedAttr_noStale_at _ _ _ _ _ h huc
  · rw [pyGetattr_updEmbeddedAttr_ne _ _ _ _ _ (by decide)] at h
    exact updEmbeddedAttr_noStale_at _ _ _ _ _ h huc
  · exact updEmbeddedAttr_noStale_at _ _ _ _ _ h huc

/-- A balance/turnover holder carries no stale embedded copy after its pass. -/
theorem updBalance_noStale (item_id : String) (upd b : Entity) :
    noStale item_id upd (updBalance item_id upd b) := by
  intro a ha n h huc
  simp only [refAttrs, List.mem_cons, List.not_mem_nil, or_false] at ha
  unfold updBalance at h
  rcases ha with rfl | rfl | rfl
  · rw [pyGetattr_updEmbeddedAttr_ne _ _ _ _ _ (by decide),
        pyGetattr_updEmbeddedAttr_ne _ _ _ _ _ (by decide)] at h
    rcases idStepB_nomenclature item_id upd
        (updEmbeddedAttr b "nomenclature" item_id upd) with hi | hi
    · rw [hi] at h
      exact (Value.ent.inj (Option.some.inj h)).symm
    · rw [hi] at h
      exact updEmbeddedAttr_noStale_at _ _ _ _ _ h huc
  · rw [pyGetattr_updEmbeddedAttr_ne _ _ _ _ _ (by decide)] at h
    exact updEmbeddedAttr_noStale_at _ _ _ _ _ h huc
  · exact updEmbeddedAttr_noStale_at _ _ _ _ _ h huc

end reference_service

namespace reference_service

/-- Every object composition item of a receipt carries no stale embedded
copy after the receipts pass (all three guarded rewrites run on every item;
the three-argument getattr never raises). -/
theorem updCompItem_noStale (item_id : String) (upd : Entity) (e e' : Entity)
    (h : updCompItem item_id upd (.ent e) = .ent e') :
    noStale item_id upd e' := by
  intro a ha n hget huc
  simp only [refAttrs, List.mem_cons, List.not_mem_nil, or_false] at ha
  unfold updCompItem at h
  dsimp only at h
  have he' : e' = updEmbeddedAttr (updEmbeddedAttr
      (updEmbeddedAttr e "nomenclature" item_id upd) "unit" item_id upd)
      "storage" item_id upd := (Value.ent.inj h).symm
  subst he'
  rcases ha with rfl | rfl | rfl
  · rw [pyGetattr_updEmbeddedAttr_ne _ _ _ _ _ (by decide),
        pyGetattr_updEmbeddedAttr_ne _ _ _ _ _ (by decide)] at hget
    exact updEmbeddedAttr_noStale_at _ _ _ _ _ hget huc
  · rw [pyGetattr_updEmbeddedAttr_ne _ _ _ _ _ (by decide)] at hget
    exact updEmbeddedAttr_noStale_at _ _ _ _ _ hget huc
  · exact updEmbeddedAttr_noStale_at _ _ _ _ _ hget huc

/-- The chosen composition list of a receipt is rewritten item by item. -/
theorem updReceipt_get_chosen (item_id : String) (upd r : Entity) (a : String)
    (l : List Value) (h : compPick r = some (a, .lst l)) :
    pyGetattr (updReceipt item_id upd r) a =
      some (.lst (l.map (updCompItem item_id upd))) := by
  unfold updReceipt
  rw [h]
  exact pyGetattr_pySetattr_same _ _ _

/-- The receipts pass is a plain map when no composition value crashes. -/
theorem updReceiptListAbort_eq_map (item_id : String) (upd : Entity)
    (l : List Entity) (h : ∀ r ∈ l, compCrash r = false) :
    updReceiptListAbort item_id upd l = (l.map (updReceipt item_id upd), false) := by
  induction l with
  | nil => rfl
  | cons r rest ih =>
      unfold updReceiptListAbort
      rw [h r (List.mem_cons_self r rest)]
      simp only [Bool.false_eq_true, if_false, List.map]
      rw [ih (fun x hx => h x (List.mem_cons_of_mem _ hx))]

/-- The receipts phase under a crash-free receipt collection. -/
theorem receiptsPhase_no_crash (s : Store) (item_id : String) (upd : Entity)
    (h : ∀ r ∈ s.getList "receipt_model", compCrash r = false) :
    receiptsPhase s item_id upd =
      (s.putAt "receipt_model"
        ((s.getList "receipt_model").map (updReceipt item_id upd)), false) := by
  have hrk : receipt_keys = ["receipt_model"] := by decide
  unfold receiptsPhase
  rw [hrk]
  simp only [List.foldl]
  rw [updReceiptListAbort_eq_map item_id upd _ h]
  simp

/-! ### Field application characterization -/

theorem pyHasattr_pySetattrIfHas (e : Entity) (b : String) (w : Value) (a : String) :
    pyHasattr (pySetattrIfHas e b w) a = pyHasattr e a := by
  unfold pySetattrIfHas
  by_cases hb : pyHasattr e b = true
  · rw [if_pos hb, pyHasattr_pySetattr]
    by_cases hba : b = a
    · subst hba
      simp [hb]
    · simp [hba]
  · rw [if_neg hb]

theorem pyGetattr_applyPayload (e : Entity) (p : List (String × Value)) (a : String) :
    pyGetattr (applyPayload e p) a =
      match lastVal p a with
      | some v => if pyHasattr e a then some v else pyGetattr e a
      | none => pyGetattr e a := by
  induction p generalizing e with
  | nil => rfl
  | cons q rest ih =>
      obtain ⟨b, w⟩ := q
      have hstep : applyPayload e ((b, w) :: rest) =
          applyPayload (pySetattrIfHas e b w) rest := rfl
      rw [hstep, ih]
      have hha : pyHasattr (pySetattrIfHas e b w) a = pyHasattr e a :=
        pyHasattr_pySetattrIfHas e b w a
      have hlast : lastVal ((b, w) :: rest) a =
          match lastVal rest a with
          | some v => some v
          | none => if b == a then some w else none := rfl
      rw [hlast, hha]
      rcases hl : lastVal rest a with _ | v
      · dsimp only
        by_cases hba : b = a
        · subst hba
          simp only [beq_self_eq_true', if_true]
          by_cases he : pyHasattr e b = true
          · rw [if_pos he]
            unfold pySetattrIfHas
            rw [if_pos he, pyGetattr_pySetattr_same]
          · rw [if_neg he]
            unfold pySetattrIfHas
            rw [if_neg he]
        · simp only [beq_iff_eq, hba, if_false]
          unfold pySetattrIfHas
          by_cases he : pyHasattr e b = true
          · rw [if_pos he, pyGetattr_pySetattr_ne _ _ _ _ hba]
          · rw [if_neg he]
      · dsimp only
        by_cases hh : pyHasattr e a = true
        · rw [if_pos hh, if_pos hh]
        · rw [if_neg hh, if_neg hh]
          unfold pySetattrIfHas
          by_cases he : pyHasattr e b = true
          · rw [if_pos he]
            by_cases hba : b = a
            · subst hba
              exact absurd he hh
            · rw [pyGetattr_pySetattr_ne _ _ _ _ hba]
          · rw [if_neg he]

end reference_service

namespace reference_service

/-- The collections whose direct nomenclature/unit/storage references the
cascade rewrites (the transaction/turnover/balance keys of
_all_possible_repo_keys). -/
def directCascadeKeys : List String :=
  ["transaction_key", "turnover_model", "saved_turnover", "turnovers",
   "balance_model", "balances"]

theorem update_ok_state (s : Store) (rt item_id key : String)
    (payload : List (String × Value)) (target : Entity)
    (hkey : map_type_to_repo_key rt = .ok key)
    (hfind : (s.getList key).find? (fun x => Entity.uc x == some item_id) =
      some target) :
    update s rt item_id payload =
      (.ok (applyPayload target payload, ["reference_updated"]),
       update_dependencies_on_change
         (s.setList key (replaceFirstByUc (s.getList key) item_id
            (applyPayload target payload)))
         item_id (applyPayload target payload)) := by
  unfold update
  rw [hkey]
  dsimp only
  rw [hfind]

theorem update_dependencies_no_crash (s2 : Store) (item_id : String) (upd : Entity)
    (h : ∀ r ∈ s2.getList "receipt_model", compCrash r = false) :
    update_dependencies_on_change s2 item_id upd =
      balance_keys.foldl (fun acc k => acc.mapAt k (updBalance item_id upd))
        (transaction_keys.foldl
          (fun acc tk => acc.mapAt tk (updTransaction item_id upd))
          (s2.putAt "receipt_model"
            ((s2.getList "receipt_model").map (updReceipt item_id upd)))) := by
  unfold update_dependencies_on_change
  rw [receiptsPhase_no_crash s2 item_id upd h]
  simp

/-- C2 (amended): after update, the target carries each last-written payload
value on its existing fields; every direct holder in the
transaction/turnover/balance collections carries no stale embedded
nomenclature/unit/storage copy; the receipt collection is rewritten receipt
by receipt, and every object item of the chosen composition list loses all
stale matching embedded nomenclature/unit/storage references (non-object
entries carry no such attributes and pass through).  Holders in any
collection outside _all_possible_repo_keys — e.g. a nomenclature entity's
embedded unit reference — are not updated. -/
theorem c2_amended_cascade_propagation (s : Store) (rt item_id key : String)
    (payload : List (String × Value)) (target : Entity)
    (hkey : map_type_to_repo_key rt = .ok key)
    (hfind : (s.getList key).find? (fun x => Entity.uc x == some item_id) =
      some target)
    (hcrash : ∀ r ∈ s.getList "receipt_model", compCrash r = false) :
    (∀ a v, lastVal payload a = some v → pyHasattr target a = true →
       pyGetattr (applyPayload target payload) a = some v) ∧
    (∀ k ∈ directCascadeKeys, ∀ t ∈ ((update s rt item_id payload).2).getList k,
       noStale item_id (applyPayload target payload) t) ∧
    (((update s rt item_id payload).2).getList "receipt_model" =
      (s.getList "receipt_model").map
        (updReceipt item_id (applyPayload target payload))) ∧
    (∀ e e', updCompItem item_id (applyPayload target payload) (.ent e) =
       .ent e' → noStale item_id (applyPayload target payload) e') ∧
    (∀ r a l, compPick r = some (a, .lst l) →
       pyGetattr (updReceipt item_id (applyPayload target payload) r) a =
         some (.lst (l.map (updCompItem item_id (applyPayload target payload))))) := by
  have hkc := map_type_key_cases rt key hkey
  have hkne : key ≠ "receipt_model" := by
    rcases hkc with rfl | rfl | rfl | rfl <;> decide
  have hrm : (s.setList key (replaceFirstByUc (s.getList key) item_id
        (applyPayload target payload))).getList "receipt_model" =
      s.getList "receipt_model" :=
    Store.getList_setList_ne _ _ _ _ hkne
  have hcrash2 : ∀ r ∈ (s.setList key (replaceFirstByUc (s.getList key) item_id
        (applyPayload target payload))).getList "receipt_model",
      compCrash r = false := by
    rw [hrm]; exact hcrash
  have hstate : (update s rt item_id payload).2 =
      balance_keys.foldl
        (fun acc k => acc.mapAt k (updBalance item_id (applyPayload target payload)))
        (transaction_keys.foldl
          (fun acc tk => acc.mapAt tk
            (updTransaction item_id (applyPayload target payload)))
          ((s.setList key (replaceFirstByUc (s.getList key) item_id
              (applyPayload target payload))).putAt "receipt_model"
            (((s.setList key (replaceFirstByUc (s.getList key) item_id
                (applyPayload target payload))).getList "receipt_model").map
              (updReceipt item_id (applyPayload target payload))))) := by
    rw [update_ok_state s rt item_id key payload target hkey hfind]
    exact update_dependencies_no_crash _ item_id _ hcrash2
  refine ⟨?_, ?_, ?_, ?_, ?_⟩
  · intro a v hl hh
    rw [pyGetattr_applyPayload, hl]
    dsimp only
    rw [if_pos hh]
  · intro k hk t ht
    rw [hstate] at ht
    simp only [directCascadeKeys, List.mem_cons, List.not_mem_nil, or_false] at hk
    rcases hk with rfl | rfl | rfl | rfl | rfl | rfl
    · rw [getList_foldl_mapAt_not_mem _ _ _ _ (by decide),
          getList_foldl_mapAt_mem _ _ _ _ (by decide) (by decide)] at ht
      obtain ⟨x, hx, rfl⟩ := List.mem_map.mp ht
      exact updTransaction_noStale item_id _ x
    all_goals
      rw [getList_foldl_mapAt_mem _ _ _ _ (by decide) (by decide)] at ht
    all_goals
      obtain ⟨x, hx, rfl⟩ := List.mem_map.mp ht
    all_goals
      exact updBalance_noStale item_id _ x
  · rw [hstate]
    rw [getList_foldl_mapAt_not_mem _ _ _ _ (by decide),
        getList_foldl_mapAt_not_mem _ _ _ _ (by decide)]
    by_cases hcc : ((s.setList key (replaceFirstByUc (s.getList key) item_id
        (applyPayload target payload))).containsKey "receipt_model") = true
    · rw [Store.getList_putAt_contains _ _ _ hcc, hrm]
    · obtain ⟨h1, h2⟩ := Store.getList_putAt_not_contains _ "receipt_model"
        (((s.setList key (replaceFirstByUc (s.getList key) item_id
            (applyPayload target payload))).getList "receipt_model").map
          (updReceipt item_id (applyPayload target payload)))
        (by simpa using hcc)
      rw [h1, ← hrm, h2]
      rfl
  · intro e e' h
    exact updCompItem_noStale item_id _ e e' h
  · intro r a l h
    exact updReceipt_get_chosen item_id _ r a l h

/-- The C2 amended witness target. -/
def c2wTarget : Entity := .mk [("unique_code", .str "n1"), ("name", .str "Old")]

/-- A receipt holding a dict composition entry referencing n1. -/
def c2wReceipt : Entity :=
  .mk [("unique_code", .str "rec1"),
       ("composition", .lst [.dct [("nomenclature_id", "n1")]])]

def c2wStore : Store :=
  [("nomenclature_model", [c2wTarget]), ("receipt_model", [c2wReceipt])]

/-- C2 amended witness. -/
theorem c2_amended_cascade_propagation_witness :
    ((update c2wStore "nomenclature" "n1" [("name", .str "New")]).2).getList
        "receipt_model" =
      (c2wStore.getList "receipt_model").map
        (updReceipt "n1" (applyPayload c2wTarget [("name", .str "New")])) :=
  (c2_amended_cascade_propagation c2wStore "nomenclature" "n1" "nomenclature_model"
    [("name", .str "New")] c2wTarget rfl rfl (by decide)).2.2.1

end reference_service

namespace reference_service

/-! ### Replacement lemmas for the mutated target -/

theorem replaceFirstByUc_cons (x : Entity) (xs : List Entity) (i : String)
    (e' : Entity) :
    replaceFirstByUc (x :: xs) i e' =
      if (Entity.uc x == some i) = true then e' :: xs
      else x :: replaceFirstByUc xs i e' := rfl

theorem replaceFirst_find_match (l : List Entity) (i : String) (e' : Entity)
    (hfound : ((l.find? (fun x => Entity.uc x == some i)).isSome) = true)
    (huc : (Entity.uc e' == some i) = true) :
    (replaceFirstByUc l i e').find? (fun x => Entity.uc x == some i) = some e' := by
  induction l with
  | nil => simp at hfound
  | cons x xs ih =>
      rw [replaceFirstByUc_cons]
      by_cases hx : (Entity.uc x == some i) = true
      · rw [if_pos hx]
        exact List.find?_cons_of_pos _ huc
      · rw [if_neg hx]
        rw [List.find?_cons_of_neg _ (by simpa using hx)]
        apply ih
        rw [List.find?_cons_of_neg _ (by simpa using hx)] at hfound
        exact hfound

theorem replaceFirst_none_of_unique (l : List Entity) (i : String) (e' : Entity)
    (hne : (Entity.uc e' == some i) = false)
    (huniq : ((l.filter (fun x => Entity.uc x == some i)).length ≤ 1)) :
    (replaceFirstByUc l i e').find? (fun x => Entity.uc x == some i) = none := by
  induction l with
  | nil => rfl
  | cons x xs ih =>
      rw [replaceFirstByUc_cons]
      by_cases hx : (Entity.uc x == some i) = true
      · rw [if_pos hx]
        rw [List.find?_cons_of_neg _ (by simp [hne])]
        have hfc : List.filter (fun x => Entity.uc x == some i) (x :: xs) =
            x :: List.filter (fun x => Entity.uc x == some i) xs := by
          simp [List.filter_cons, hx]
        rw [hfc] at huniq
        simp only [List.length_cons] at huniq
        have hlen : (xs.filter (fun x => Entity.uc x == some i)).length = 0 := by
          omega
        rw [List.find?_eq_none]
        intro y hy hpy
        have hmemf : y ∈ xs.filter (fun x => Entity.uc x == some i) :=
          List.mem_filter.mpr ⟨hy, hpy⟩
        rw [List.length_eq_zero.mp hlen] at hmemf
        cases hmemf
      · rw [if_neg hx]
        rw [List.find?_cons_of_neg _ (by simpa using hx)]
        apply ih
        have hfc : List.filter (fun x => Entity.uc x == some i) (x :: xs) =
            List.filter (fun x => Entity.uc x == some i) xs := by
          simp [List.filter_cons, hx]
        rw [hfc] at huniq
        exact huniq

theorem replaceFirst_self (l : List Entity) (i : String) (e' : Entity)
    (huc : (Entity.uc e' == some i) = true) :
    replaceFirstByUc (replaceFirstByUc l i e') i e' = replaceFirstByUc l i e' := by
  induction l with
  | nil => rfl
  | cons x xs ih =>
      rw [replaceFirstByUc_cons]
      by_cases hx : (Entity.uc x == some i) = true
      · rw [if_pos hx, replaceFirstByUc_cons, if_pos huc]
      · rw [if_neg hx, replaceFirstByUc_cons, if_neg hx, ih]

/-! ### Structural idempotence of the field application -/

/-- The pointwise effect of one payload replay on a (key, value) binding. -/
def payApply (p : List (String × Value)) (kv : String × Value) : String × Value :=
  match lastVal p kv.1 with
  | some v => (kv.1, v)
  | none => kv

theorem payApply_fst (p : List (String × Value)) (kv : String × Value) :
    (payApply p kv).1 = kv.1 := by
  unfold payApply
  rcases lastVal p kv.1 with _ | v <;> rfl

theorem payApply_idem (p : List (String × Value)) (kv : String × Value) :
    payApply p (payApply p kv) = payApply p kv := by
  unfold payApply
  rcases h : lastVal p kv.1 with _ | v
  · rw [h]
  · dsimp only
    rw [h]

theorem setAttrList_eq_map (l : List (String × Value)) (a : String) (v : Value)
    (hf : ((l.find? (fun q => q.1 == a)).isSome) = true)
    (hnd : (l.map (fun q => q.1)).Nodup) :
    setAttrList l a v = l.map (fun kv => if kv.1 == a then (a, v) else kv) := by
  induction l with
  | nil => simp at hf
  | cons q rest ih =>
      by_cases hq : q.1 = a
      · have hrest : ∀ kv ∈ rest, ¬(kv.1 = a) := by
          intro kv hkv hkva
          have : q.1 ∈ rest.map (fun q => q.1) :=
            List.mem_map.mpr ⟨kv, hkv, by rw [hkva, hq]⟩
          exact (List.nodup_cons.mp hnd).1 this
        unfold setAttrList
        rw [if_pos (by simpa using hq)]
        simp only [List.map]
        rw [if_pos (by simpa using hq)]
        congr 1
        rw [List.map_congr_left (fun kv hkv => by
          rw [if_neg (by simpa using hrest kv hkv)]), List.map_id']
      · unfold setAttrList
        rw [if_neg (by simpa using hq)]
        simp only [List.map]
        rw [if_neg (by simpa using hq)]
        congr 1
        apply ih
        · rw [List.find?_cons_of_neg _ (by simpa using hq)] at hf
          exact hf
        · exact (List.nodup_cons.mp hnd).2

theorem setAttrList_keys_of_found (l : List (String × Value)) (b : String)
    (w : Value) (hf : ((l.find? (fun q => q.1 == b)).isSome) = true) :
    (setAttrList l b w).map (fun q => q.1) = l.map (fun q => q.1) := by
  induction l with
  | nil => simp at hf
  | cons q rest ih =>
      by_cases hq : q.1 = b
      · have hstep : setAttrList (q :: rest) b w = (b, w) :: rest := by
          unfold setAttrList
          rw [if_pos (by simpa using hq)]
        rw [hstep]
        simp [hq]
      · have hstep : setAttrList (q :: rest) b w = q :: setAttrList rest b w := by
          show (if (q.1 == b) = true then ((b, w) :: rest)
            else q :: setAttrList rest b w) = _
          rw [if_neg (by simpa using hq)]
        rw [hstep]
        simp only [List.map, List.cons.injEq, true_and]
        apply ih
        rw [List.find?_cons_of_neg _ (by simpa using hq)] at hf
        exact hf

theorem attrs_keys_pySetattrIfHas (e : Entity) (b : String) (w : Value) :
    ((pySetattrIfHas e b w).attrs).map (fun q => q.1) =
      (e.attrs).map (fun q => q.1) := by
  unfold pySetattrIfHas
  by_cases hb : pyHasattr e b = true
  · rw [if_pos hb]
    cases e with
    | mk l =>
        exact setAttrList_keys_of_found l b w
          (by simpa [pyHasattr, Entity.attrs] using hb)
  · rw [if_neg hb]

theorem keysNodup_pySetattrIfHas (e : Entity) (b : String) (w : Value)
    (h : Entity.keysNodup e) : Entity.keysNodup (pySetattrIfHas e b w) := by
  unfold Entity.keysNodup at h ⊢
  rw [attrs_keys_pySetattrIfHas]
  exact h

theorem lastVal_cons (q : String × Value) (rest : List (String × Value))
    (a : String) :
    lastVal (q :: rest) a =
      match lastVal rest a with
      | some v => some v
      | none => if q.1 == a then some q.2 else none := rfl

theorem applyPayload_attrs (e : Entity) (p : List (String × Value))
    (hnd : Entity.keysNodup e) :
    (applyPayload e p).attrs = e.attrs.map (payApply p) := by
  induction p generalizing e with
  | nil =>
      show e.attrs = _
      rw [List.map_congr_left (fun kv _ => by
        unfold payApply lastVal
        rfl), List.map_id']
  | cons q rest ih =>
      obtain ⟨b, w⟩ := q
      have hstep : applyPayload e ((b, w) :: rest) =
          applyPayload (pySetattrIfHas e b w) rest := rfl
      rw [hstep, ih _ (keysNodup_pySetattrIfHas e b w hnd)]
      by_cases hb : pyHasattr e b = true
      · have hset : (pySetattrIfHas e b w).attrs =
            e.attrs.map (fun kv => if kv.1 == b then (b, w) else kv) := by
          unfold pySetattrIfHas
          rw [if_pos hb]
          cases e with
          | mk l =>
              exact setAttrList_eq_map l b w
                (by simpa [pyHasattr, Entity.attrs] using hb)
                (by simpa [Entity.keysNodup, Entity.attrs] using hnd)
        rw [hset, List.map_map]
        apply List.map_congr_left
        intro kv _
        simp only [Function.comp]
        by_cases hkb : kv.1 = b
        · rw [if_pos (by simpa using hkb)]
          unfold payApply
          rw [lastVal_cons]
          dsimp only
          rw [hkb]
          rcases hl : lastVal rest b with _ | v
          · dsimp only
            rw [if_pos (by simp)]
          · dsimp only
        · rw [if_neg (by simpa using hkb)]
          unfold payApply
          rw [lastVal_cons]
          dsimp only
          rcases hl : lastVal rest kv.1 with _ | v
          · dsimp only
            rw [if_neg (by simp only [beq_iff_eq]; exact fun hh => hkb (Eq.symm hh))]
          · dsimp only
      · have hset : pySetattrIfHas e b w = e := by
          unfold pySetattrIfHas
          rw [if_neg hb]
        rw [hset]
        apply List.map_congr_left
        intro kv hkv
        have hkb : ¬(kv.1 = b) := by
          intro hkb
          apply hb
          unfold pyHasattr
          rw [List.find?_isSome]
          exact ⟨kv, hkv, by simpa using hkb⟩
        unfold payApply
        rw [lastVal_cons]
        dsimp only
        rcases hl : lastVal rest kv.1 with _ | v
        · dsimp only
          rw [if_neg (by simp only [beq_iff_eq]; exact fun hh => hkb (Eq.symm hh))]
        · dsimp only

theorem Entity.eq_of_attrs {a b : Entity} (h : a.attrs = b.attrs) : a = b := by
  cases a
  cases b
  simpa [Entity.attrs] using h

theorem applyPayload_keysNodup (e : Entity) (p : List (String × Value))
    (hnd : Entity.keysNodup e) : Entity.keysNodup (applyPayload e p) := by
  unfold Entity.keysNodup at hnd ⊢
  rw [applyPayload_attrs e p hnd, List.map_map]
  have : ((fun q => q.1) ∘ payApply p) = fun (q : String × Value) => q.1 := by
    funext kv
    exact payApply_fst p kv
  rw [this]
  exact hnd

theorem applyPayload_idem (e : Entity) (p : List (String × Value))
    (hnd : Entity.keysNodup e) :
    applyPayload (applyPayload e p) p = applyPayload e p := by
  apply Entity.eq_of_attrs
  rw [applyPayload_attrs _ p (applyPayload_keysNodup e p hnd),
      applyPayload_attrs e p hnd, List.map_map]
  apply List.map_congr_left
  intro kv _
  exact payApply_idem p kv

end reference_service

namespace reference_service

/-! ### Absorption: a second cascade pass over an already-updated holder is
the identity -/

theorem updEmbeddedAttr_absorb (y : Entity) (a item_id : String) (upd : Entity)
    (h : ∀ n, pyGetattr y a = some (.ent n) → Entity.uc n = some item_id →
      n = upd) :
    updEmbeddedAttr y a item_id upd = y := by
  rcases hg : pyGetattr y a with _ | v
  · unfold updEmbeddedAttr
    rw [hg]
  · unfold updEmbeddedAttr
    rw [hg]
    cases v with
    | ent n =>
        dsimp only
        by_cases hm : (Entity.uc n == some item_id) = true
        · rw [if_pos hm]
          have hn : n = upd := h n hg (by simpa using hm)
          rw [hn] at hg
          exact pySetattr_self _ _ _ hg
        · rw [if_neg hm]
    | str s1 => rfl
    | dct d => rfl
    | lst l => rfl

theorem idStepT_absorb (item_id : String) (upd y : Entity)
    (h : ∀ s1, pyGetattr y "nomenclature_id" = some (.str s1) →
      (!(s1 == "") && s1 == item_id) = true →
      pyGetattr y "nomenclature" = some (.ent upd) ∧
        ∀ u, Entity.uc upd = some u → s1 = u) :
    idStepT item_id upd y = y := by
  rcases hg : pyGetattr y "nomenclature_id" with _ | v
  · unfold idStepT
    rw [hg]
  · unfold idStepT
    rw [hg]
    cases v with
    | str s1 =>
        dsimp only
        by_cases hc : (!(s1 == "") && s1 == item_id) = true
        · rw [if_pos hc]
          obtain ⟨h1, h2⟩ := h s1 hg hc
          cases hu : Entity.uc upd with
          | some u =>
              dsimp only
              rw [pySetattr_self _ _ _ h1]
              have hsu : s1 = u := h2 u hu
              rw [← hsu]
              exact pySetattr_self _ _ _ hg
          | none =>
              dsimp only
              exact pySetattr_self _ _ _ h1
        · rw [if_neg hc]
    | ent m => rfl
    | dct d => rfl
    | lst l => rfl

theorem idStepB_absorb (item_id : String) (upd y : Entity)
    (h : ∀ s1, pyGetattr y "nomenclature_id" = some (.str s1) →
      (!(s1 == "") && s1 == item_id) = true →
      pyGetattr y "nomenclature" = some (.ent upd)) :
    idStepB item_id upd y = y := by
  rcases hg : pyGetattr y "nomenclature_id" with _ | v
  · unfold idStepB
    rw [hg]
  · unfold idStepB
    rw [hg]
    cases v with
    | str s1 =>
        dsimp only
        by_cases hc : (!(s1 == "") && s1 == item_id) = true
        · rw [if_pos hc]
          exact pySetattr_self _ _ _ (h s1 hg hc)
        · rw [if_neg hc]
    | ent m => rfl
    | dct d => rfl
    | lst l => rfl

/-! ### What the first pass leaves in the id-triggered fields -/

theorem updTransaction_id_post (item_id : String) (upd t : Entity) (s1 : String)
    (hnid : pyGetattr (updTransaction item_id upd t) "nomenclature_id" =
      some (.str s1))
    (hc : (!(s1 == "") && s1 == item_id) = true) :
    pyGetattr (updTransaction item_id upd t) "nomenclature" = some (.ent upd) ∧
      ∀ u, Entity.uc upd = some u → s1 = u := by
  have hnid' : pyGetattr (updTransaction item_id upd t) "nomenclature_id" =
      pyGetattr (idStepT item_id upd (updEmbeddedAttr t "nomenclature" item_id upd))
        "nomenclature_id" := by
    unfold updTransaction
    rw [pyGetattr_updEmbeddedAttr_ne _ _ _ _ _ (by decide),
        pyGetattr_updEmbeddedAttr_ne _ _ _ _ _ (by decide)]
  have hnom' : pyGetattr (updTransaction item_id upd t) "nomenclature" =
      pyGetattr (idStepT item_id upd (updEmbeddedAttr t "nomenclature" item_id upd))
        "nomenclature" := by
    unfold updTransaction
    rw [pyGetattr_updEmbeddedAttr_ne _ _ _ _ _ (by decide),
        pyGetattr_updEmbeddedAttr_ne _ _ _ _ _ (by decide)]
  rw [hnid'] at hnid
  rw [hnom']
  rcases hg : pyGetattr (updEmbeddedAttr t "nomenclature" item_id upd)
      "nomenclature_id" with _ | v
  · unfold idStepT at hnid
    rw [hg] at hnid
    dsimp only at hnid
    rw [hg] at hnid
    cases hnid
  · unfold idStepT at hnid ⊢
    rw [hg] at hnid ⊢
    cases v with
    | str s0 =>
        dsimp only at hnid ⊢
        by_cases hc0 : (!(s0 == "") && s0 == item_id) = true
        · rw [if_pos hc0] at hnid ⊢
          cases hu : Entity.uc upd with
          | some u =>
              rw [hu] at hnid
              dsimp only at hnid
              rw [pyGetattr_pySetattr_same] at hnid
              have hs1u : s1 = u := (Value.str.inj (Option.some.inj hnid)).symm
              constructor
              · rw [pyGetattr_pySetattr_ne _ _ _ _ (by decide),
                    pyGetattr_pySetattr_same]
              · intro u' hu'
                exact hs1u.trans (Option.some.inj hu')
          | none =>
              rw [hu] at hnid
              dsimp only at hnid
              constructor
              · rw [pyGetattr_pySetattr_same]
              · intro u' hu'
                cases hu'
        · rw [if_neg hc0] at hnid
          rw [hg] at hnid
          have hs01 : s0 = s1 := Value.str.inj (Option.some.inj hnid)
          rw [hs01] at hc0
          exact absurd hc hc0
    | ent m =>
        dsimp only at hnid
        rw [hg] at hnid
        exact Value.noConfusion (Option.some.inj hnid)
    | dct d =>
        dsimp only at hnid
        rw [hg] at hnid
        exact Value.noConfusion (Option.some.inj hnid)
    | lst l =>
        dsimp only at hnid
        rw [hg] at hnid
        exact Value.noConfusion (Option.some.inj hnid)

theorem updBalance_id_post (item_id : String) (upd b : Entity) (s1 : String)
    (hnid : pyGetattr (updBalance item_id upd b) "nomenclature_id" =
      some (.str s1))
    (hc : (!(s1 == "") && s1 == item_id) = true) :
    pyGetattr (updBalance item_id upd b) "nomenclature" = some (.ent upd) := by
  have hnid' : pyGetattr (updBalance item_id upd b) "nomenclature_id" =
      pyGetattr (idStepB item_id upd (updEmbeddedAttr b "nomenclature" item_id upd))
        "nomenclature_id" := by
    unfold updBalance
    rw [pyGetattr_updEmbeddedAttr_ne _ _ _ _ _ (by decide),
        pyGetattr_updEmbeddedAttr_ne _ _ _ _ _ (by decide)]
  have hnom' : pyGetattr (updBalance item_id upd b) "nomenclature" =
      pyGetattr (idStepB item_id upd (updEmbeddedAttr b "nomenclature" item_id upd))
        "nomenclature" := by
    unfold updBalance
    rw [pyGetattr_updEmbeddedAttr_ne _ _ _ _ _ (by decide),
        pyGetattr_updEmbeddedAttr_ne _ _ _ _ _ (by decide)]
  rw [hnid'] at hnid
  rw [hnom']
  rcases hg : pyGetattr (updEmbeddedAttr b "nomenclature" item_id upd)
      "nomenclature_id" with _ | v
  · unfold idStepB at hnid
    rw [hg] at hnid
    dsimp only at hnid
    rw [hg] at hnid
    cases hnid
  · unfold idStepB at hnid ⊢
    rw [hg] at hnid ⊢
    cases v with
    | str s0 =>
        dsimp only at hnid ⊢
        by_cases hc0 : (!(s0 == "") && s0 == item_id) = true
        · rw [if_pos hc0]
          exact pyGetattr_pySetattr_same _ _ _
        · rw [if_neg hc0] at hnid
          rw [hg] at hnid
          have hs01 : s0 = s1 := Value.str.inj (Option.some.inj hnid)
          rw [hs01] at hc0
          exact absurd hc hc0
    | ent m =>
        dsimp only at hnid
        rw [hg] at hnid
        exact Value.noConfusion (Option.some.inj hnid)
    | dct d =>
        dsimp only at hnid
        rw [hg] at hnid
        exact Value.noConfusion (Option.some.inj hnid)
    | lst l =>
        dsimp only at hnid
        rw [hg] at hnid
        exact Value.noConfusion (Option.some.inj hnid)

end reference_service

namespace reference_service

theorem updBalance_nid_preserved (item_id : String) (upd b : Entity) :
    pyGetattr (updBalance item_id upd b) "nomenclature_id" =
      pyGetattr b "nomenclature_id" := by
  unfold updBalance
  rw [pyGetattr_updEmbeddedAttr_ne _ _ _ _ _ (by decide),
      pyGetattr_updEmbeddedAttr_ne _ _ _ _ _ (by decide),
      pyGetattr_idStepB_ne _ _ _ _ (by decide),
      pyGetattr_updEmbeddedAttr_ne _ _ _ _ _ (by decide)]

theorem updBalance_nom_stable (item_id : String) (upd b : Entity)
    (h : pyGetattr b "nomenclature" = some (.ent upd)) :
    pyGetattr (updBalance item_id upd b) "nomenclature" = some (.ent upd) := by
  unfold updBalance
  rw [pyGetattr_updEmbeddedAttr_ne _ _ _ _ _ (by decide),
      pyGetattr_updEmbeddedAttr_ne _ _ _ _ _ (by decide)]
  have h1 : pyGetattr (updEmbeddedAttr b "nomenclature" item_id upd)
      "nomenclature" = some (.ent upd) := by
    unfold updEmbeddedAttr
    rw [h]
    dsimp only
    by_cases hm : (Entity.uc upd == some item_id) = true
    · rw [if_pos hm, pyGetattr_pySetattr_same]
    · rw [if_neg hm]
      exact h
  rcases idStepB_nomenclature item_id upd
      (updEmbeddedAttr b "nomenclature" item_id upd) with hi | hi
  · rw [hi]
  · rw [hi]
    exact h1

/-- The transaction pass is idempotent. -/
theorem updTransaction_idem (item_id : String) (upd t : Entity) :
    updTransaction item_id upd (updTransaction item_id upd t) =
      updTransaction item_id upd t := by
  have hns := updTransaction_noStale item_id upd t
  have habs1 : updEmbeddedAttr (updTransaction item_id upd t) "nomenclature"
      item_id upd = updTransaction item_id upd t :=
    updEmbeddedAttr_absorb _ _ _ _
      (fun n hg huc => hns "nomenclature" (by decide) n hg huc)
  have habs2 : idStepT item_id upd (updTransaction item_id upd t) =
      updTransaction item_id upd t := by
    apply idStepT_absorb
    intro s1 hnid hc
    exact updTransaction_id_post item_id upd t s1 hnid hc
  have habs3 : updEmbeddedAttr (updTransaction item_id upd t) "unit"
      item_id upd = updTransaction item_id upd t :=
    updEmbeddedAttr_absorb _ _ _ _
      (fun n hg huc => hns "unit" (by decide) n hg huc)
  have habs4 : updEmbeddedAttr (updTransaction item_id upd t) "storage"
      item_id upd = updTransaction item_id upd t :=
    updEmbeddedAttr_absorb _ _ _ _
      (fun n hg huc => hns "storage" (by decide) n hg huc)
  show updEmbeddedAttr (updEmbeddedAttr (idStepT item_id upd
      (updEmbeddedAttr (updTransaction item_id upd t) "nomenclature" item_id upd))
      "unit" item_id upd) "storage" item_id upd = updTransaction item_id upd t
  rw [habs1, habs2, habs3, habs4]

/-- The balance pass is idempotent. -/
theorem updBalance_idem (item_id : String) (upd b : Entity) :
    updBalance item_id upd (updBalance item_id upd b) =
      updBalance item_id upd b := by
  have hns := updBalance_noStale item_id upd b
  have habs1 : updEmbeddedAttr (updBalance item_id upd b) "nomenclature"
      item_id upd = updBalance item_id upd b :=
    updEmbeddedAttr_absorb _ _ _ _
      (fun n hg huc => hns "nomenclature" (by decide) n hg huc)
  have habs2 : idStepB item_id upd (updBalance item_id upd b) =
      updBalance item_id upd b := by
    apply idStepB_absorb
    intro s1 hnid hc
    exact updBalance_id_post item_id upd b s1 hnid hc
  have habs3 : updEmbeddedAttr (updBalance item_id upd b) "unit"
      item_id upd = updBalance item_id upd b :=
    updEmbeddedAttr_absorb _ _ _ _
      (fun n hg huc => hns "unit" (by decide) n hg huc)
  have habs4 : updEmbeddedAttr (updBalance item_id upd b) "storage"
      item_id upd = updBalance item_id upd b :=
    updEmbeddedAttr_absorb _ _ _ _
      (fun n hg huc => hns "storage" (by decide) n hg huc)
  show updEmbeddedAttr (updEmbeddedAttr (idStepB item_id upd
      (updEmbeddedAttr (updBalance item_id upd b) "nomenclature" item_id upd))
      "unit" item_id upd) "storage" item_id upd = updBalance item_id upd b
  rw [habs1, habs2, habs3, habs4]

/-- A transaction pass over a holder already processed by the
transaction-then-balance chain is the identity. -/
theorem updTransaction_after_balance (item_id : String) (upd t : Entity) :
    updTransaction item_id upd
        (updBalance item_id upd (updTransaction item_id upd t)) =
      updBalance item_id upd (updTransaction item_id upd t) := by
  have hns := updBalance_noStale item_id upd (updTransaction item_id upd t)
  have habs1 : updEmbeddedAttr
      (updBalance item_id upd (updTransaction item_id upd t)) "nomenclature"
      item_id upd = updBalance item_id upd (updTransaction item_id upd t) :=
    updEmbeddedAttr_absorb _ _ _ _
      (fun n hg huc => hns "nomenclature" (by decide) n hg huc)
  have habs2 : idStepT item_id upd
      (updBalance item_id upd (updTransaction item_id upd t)) =
      updBalance item_id upd (updTransaction item_id upd t) := by
    apply idStepT_absorb
    intro s1 hnid hc
    rw [updBalance_nid_preserved] at hnid
    obtain ⟨hnom2, hu2⟩ := updTransaction_id_post item_id upd t s1 hnid hc
    exact ⟨updBalance_nom_stable item_id upd _ hnom2, hu2⟩
  have habs3 : updEmbeddedAttr
      (updBalance item_id upd (updTransaction item_id upd t)) "unit"
      item_id upd = updBalance item_id upd (updTransaction item_id upd t) :=
    updEmbeddedAttr_absorb _ _ _ _
      (fun n hg huc => hns "unit" (by decide) n hg huc)
  have habs4 : updEmbeddedAttr
      (updBalance item_id upd (updTransaction item_id upd t)) "storage"
      item_id upd = updBalance item_id upd (updTransaction item_id upd t) :=
    updEmbeddedAttr_absorb _ _ _ _
      (fun n hg huc => hns "storage" (by decide) n hg huc)
  show updEmbeddedAttr (updEmbeddedAttr (idStepT item_id upd
      (updEmbeddedAttr (updBalance item_id upd (updTransaction item_id upd t))
        "nomenclature" item_id upd)) "unit" item_id upd) "storage" item_id upd =
    updBalance item_id upd (updTransaction item_id upd t)
  rw [habs1, habs2, habs3, habs4]

end reference_service

namespace reference_service

/-- Setting the attribute compPick chose, to another truthy value, keeps it
chosen. -/
theorem compPick_pySetattr_chosen (r : Entity) (a : String) (v w : Value)
    (hp : compPick r = some (a, v)) (hw : truthyV w = true) :
    compPick (pySetattr r a w) = some (a, w) := by
  unfold compPick at hp
  rcases h1 : pyGetattr r "composition" with _ | v1
  · rw [h1] at hp
    dsimp only at hp
    rcases h2 : pyGetattr r "_composition" with _ | v2
    · rw [h2] at hp
      dsimp only at hp
      rcases h3 : pyGetattr r "items" with _ | v3
      · rw [h3] at hp
        dsimp only at hp
        cases hp
      · rw [h3] at hp
        dsimp only at hp
        by_cases ht3 : truthyV v3 = true
        · rw [if_pos ht3] at hp
          simp only [Option.some.injEq, Prod.mk.injEq] at hp
          obtain ⟨rfl, rfl⟩ := hp
          unfold compPick
          rw [pyGetattr_pySetattr_ne _ _ _ _ (by decide), h1]
          dsimp only
          rw [pyGetattr_pySetattr_ne _ _ _ _ (by decide), h2]
          dsimp only
          rw [pyGetattr_pySetattr_same]
          dsimp only
          rw [if_pos hw]
        · rw [if_neg ht3] at hp
          cases hp
    · rw [h2] at hp
      dsimp only at hp
      by_cases ht2 : truthyV v2 = true
      · rw [if_pos ht2] at hp
        simp only [Option.some.injEq, Prod.mk.injEq] at hp
        obtain ⟨rfl, rfl⟩ := hp
        unfold compPick
        rw [pyGetattr_pySetattr_ne _ _ _ _ (by decide), h1]
        dsimp only
        rw [pyGetattr_pySetattr_same]
        dsimp only
        rw [if_pos hw]
      · rw [if_neg ht2] at hp
        rcases h3 : pyGetattr r "items" with _ | v3
        · rw [h3] at hp
          dsimp only at hp
          cases hp
        · rw [h3] at hp
          dsimp only at hp
          by_cases ht3 : truthyV v3 = true
          · rw [if_pos ht3] at hp
            simp only [Option.some.injEq, Prod.mk.injEq] at hp
            obtain ⟨rfl, rfl⟩ := hp
            unfold compPick
            rw [pyGetattr_pySetattr_ne _ _ _ _ (by decide), h1]
            dsimp only
            rw [pyGetattr_pySetattr_ne _ _ _ _ (by decide), h2]
            dsimp only
            rw [if_neg ht2, pyGetattr_pySetattr_same]
            dsimp only
            rw [if_pos hw]
          · rw [if_neg ht3] at hp
            cases hp
  · rw [h1] at hp
    dsimp only at hp
    by_cases ht1 : truthyV v1 = true
    · rw [if_pos ht1] at hp
      simp only [Option.some.injEq, Prod.mk.injEq] at hp
      obtain ⟨rfl, rfl⟩ := hp
      unfold compPick
      rw [pyGetattr_pySetattr_same]
      dsimp only
      rw [if_pos hw]
    · rw [if_neg ht1] at hp
      rcases h2 : pyGetattr r "_composition" with _ | v2
      · rw [h2] at hp
        dsimp only at hp
        rcases h3 : pyGetattr r "items" with _ | v3
        · rw [h3] at hp
          dsimp only at hp
          cases hp
        · rw [h3] at hp
          dsimp only at hp
          by_cases ht3 : truthyV v3 = true
          · rw [if_pos ht3] at hp
            simp only [Option.some.injEq, Prod.mk.injEq] at hp
            obtain ⟨rfl, rfl⟩ := hp
            unfold compPick
            rw [pyGetattr_pySetattr_ne _ _ _ _ (by decide), h1]
            dsimp only
            rw [if_neg ht1, pyGetattr_pySetattr_ne _ _ _ _ (by decide), h2]
            dsimp only
            rw [pyGetattr_pySetattr_same]
            dsimp only
            rw [if_pos hw]
          · rw [if_neg ht3] at hp
            cases hp
      · rw [h2] at hp
        dsimp only at hp
        by_cases ht2 : truthyV v2 = true
        · rw [if_pos ht2] at hp
          simp only [Option.some.injEq, Prod.mk.injEq] at hp
          obtain ⟨rfl, rfl⟩ := hp
          unfold compPick
          rw [pyGetattr_pySetattr_ne _ _ _ _ (by decide), h1]
          dsimp only
          rw [if_neg ht1, pyGetattr_pySetattr_same]
          dsimp only
          rw [if_pos hw]
        · rw [if_neg ht2] at hp
          rcases h3 : pyGetattr r "items" with _ | v3
          · rw [h3] at hp
            dsimp only at hp
            cases hp
          · rw [h3] at hp
            dsimp only at hp
            by_cases ht3 : truthyV v3 = true
            · rw [if_pos ht3] at hp
              simp only [Option.some.injEq, Prod.mk.injEq] at hp
              obtain ⟨rfl, rfl⟩ := hp
              unfold compPick
              rw [pyGetattr_pySetattr_ne _ _ _ _ (by decide), h1]
              dsimp only
              rw [if_neg ht1, pyGetattr_pySetattr_ne _ _ _ _ (by decide), h2]
              dsimp only
              rw [if_neg ht2, pyGetattr_pySetattr_same]
              dsimp only
              rw [if_pos hw]
            · rw [if_neg ht3] at hp
              cases hp

end reference_service

namespace reference_service

/-- Absorption of the unit/storage sweeps on an already-swept item. -/
theorem embUnitStorage_absorb (item_id : String) (upd e1 : Entity) :
    updEmbeddedAttr (updEmbeddedAttr (updEmbeddedAttr
        (updEmbeddedAttr e1 "unit" item_id upd) "storage" item_id upd)
      "unit" item_id upd) "storage" item_id upd =
    updEmbeddedAttr (updEmbeddedAttr e1 "unit" item_id upd)
      "storage" item_id upd := by
  have hu : updEmbeddedAttr (updEmbeddedAttr (updEmbeddedAttr e1 "unit" item_id
      upd) "storage" item_id upd) "unit" item_id upd =
      updEmbeddedAttr (updEmbeddedAttr e1 "unit" item_id upd)
        "storage" item_id upd := by
    apply updEmbeddedAttr_absorb
    intro n hg huc
    rw [pyGetattr_updEmbeddedAttr_ne _ _ _ _ _ (by decide)] at hg
    exact updEmbeddedAttr_noStale_at _ _ _ _ _ hg huc
  rw [hu]
  apply updEmbeddedAttr_absorb
  intro n hg huc
  exact updEmbeddedAttr_noStale_at _ _ _ _ _ hg huc

theorem compPick_attr_truthy (r : Entity) (a : String) (v : Value)
    (hp : compPick r = some (a, v)) : truthyV v = true := by
  unfold compPick at hp
  rcases h1 : pyGetattr r "composition" with _ | v1
  · rw [h1] at hp
    dsimp only at hp
    rcases h2 : pyGetattr r "_composition" with _ | v2
    · rw [h2] at hp
      dsimp only at hp
      rcases h3 : pyGetattr r "items" with _ | v3
      · rw [h3] at hp
        dsimp only at hp
        cases hp
      · rw [h3] at hp
        dsimp only at hp
        by_cases ht3 : truthyV v3 = true
        · rw [if_pos ht3] at hp
          simp only [Option.some.injEq, Prod.mk.injEq] at hp
          obtain ⟨rfl, rfl⟩ := hp
          exact ht3
        · rw [if_neg ht3] at hp
          cases hp
    · rw [h2] at hp
      dsimp only at hp
      by_cases ht2 : truthyV v2 = true
      · rw [if_pos ht2] at hp
        simp only [Option.some.injEq, Prod.mk.injEq] at hp
        obtain ⟨rfl, rfl⟩ := hp
        exact ht2
      · rw [if_neg ht2] at hp
        rcases h3 : pyGetattr r "items" with _ | v3
        · rw [h3] at hp
          dsimp only at hp
          cases hp
        · rw [h3] at hp
          dsimp only at hp
          by_cases ht3 : truthyV v3 = true
          · rw [if_pos ht3] at hp
            simp only [Option.some.injEq, Prod.mk.injEq] at hp
            obtain ⟨rfl, rfl⟩ := hp
            exact ht3
          · rw [if_neg ht3] at hp
            cases hp
  · rw [h1] at hp
    dsimp only at hp
    by_cases ht1 : truthyV v1 = true
    · rw [if_pos ht1] at hp
      simp only [Option.some.injEq, Prod.mk.injEq] at hp
      obtain ⟨rfl, rfl⟩ := hp
      exact ht1
    · rw [if_neg ht1] at hp
      rcases h2 : pyGetattr r "_composition" with _ | v2
      · rw [h2] at hp
        dsimp only at hp
        rcases h3 : pyGetattr r "items" with _ | v3
        · rw [h3] at hp
          dsimp only at hp
          cases hp
        · rw [h3] at hp
          dsimp only at hp
          by_cases ht3 : truthyV v3 = true
          · rw [if_pos ht3] at hp
            simp only [Option.some.injEq, Prod.mk.injEq] at hp
            obtain ⟨rfl, rfl⟩ := hp
            exact ht3
          · rw [if_neg ht3] at hp
            cases hp
      · rw [h2] at hp
        dsimp only at hp
        by_cases ht2 : truthyV v2 = true
        · rw [if_pos ht2] at hp
          simp only [Option.some.injEq, Prod.mk.injEq] at hp
          obtain ⟨rfl, rfl⟩ := hp
          exact ht2
        · rw [if_neg ht2] at hp
          rcases h3 : pyGetattr r "items" with _ | v3
          · rw [h3] at hp
            dsimp only at hp
            cases hp
          · rw [h3] at hp
            dsimp only at hp
            by_cases ht3 : truthyV v3 = true
            · rw [if_pos ht3] at hp
              simp only [Option.some.injEq, Prod.mk.injEq] at hp
              obtain ⟨rfl, rfl⟩ := hp
              exact ht3
            · rw [if_neg ht3] at hp
              cases hp

/-- The per-item composition rewrite is idempotent. -/
theorem updCompItem_idem (item_id : String) (upd : Entity) (item : Value) :
    updCompItem item_id upd (updCompItem item_id upd item) =
      updCompItem item_id upd item := by
  cases item with
  | str s1 => rfl
  | dct d => rfl
  | lst l => rfl
  | ent e =>
      have hns : noStale item_id upd
          (updEmbeddedAttr (updEmbeddedAttr
            (updEmbeddedAttr e "nomenclature" item_id upd) "unit" item_id upd)
            "storage" item_id upd) :=
        updCompItem_noStale item_id upd e _ rfl
      have habs1 : updEmbeddedAttr
          (updEmbeddedAttr (updEmbeddedAttr
            (updEmbeddedAttr e "nomenclature" item_id upd) "unit" item_id upd)
            "storage" item_id upd) "nomenclature" item_id upd =
          updEmbeddedAttr (updEmbeddedAttr
            (updEmbeddedAttr e "nomenclature" item_id upd) "unit" item_id upd)
            "storage" item_id upd :=
        updEmbeddedAttr_absorb _ _ _ _
          (fun n hg huc => hns "nomenclature" (by decide) n hg huc)
      have habs2 : updEmbeddedAttr
          (updEmbeddedAttr (updEmbeddedAttr
            (updEmbeddedAttr e "nomenclature" item_id upd) "unit" item_id upd)
            "storage" item_id upd) "unit" item_id upd =
          updEmbeddedAttr (updEmbeddedAttr
            (updEmbeddedAttr e "nomenclature" item_id upd) "unit" item_id upd)
            "storage" item_id upd :=
        updEmbeddedAttr_absorb _ _ _ _
          (fun n hg huc => hns "unit" (by decide) n hg huc)
      have habs3 : updEmbeddedAttr
          (updEmbeddedAttr (updEmbeddedAttr
            (updEmbeddedAttr e "nomenclature" item_id upd) "unit" item_id upd)
            "storage" item_id upd) "storage" item_id upd =
          updEmbeddedAttr (updEmbeddedAttr
            (updEmbeddedAttr e "nomenclature" item_id upd) "unit" item_id upd)
            "storage" item_id upd :=
        updEmbeddedAttr_absorb _ _ _ _
          (fun n hg huc => hns "storage" (by decide) n hg huc)
      show Value.ent (updEmbeddedAttr (updEmbeddedAttr (updEmbeddedAttr
          (updEmbeddedAttr (updEmbeddedAttr
            (updEmbeddedAttr e "nomenclature" item_id upd) "unit" item_id upd)
            "storage" item_id upd) "nomenclature" item_id upd)
          "unit" item_id upd) "storage" item_id upd) =
        Value.ent (updEmbeddedAttr (updEmbeddedAttr
          (updEmbeddedAttr e "nomenclature" item_id upd) "unit" item_id upd)
          "storage" item_id upd)
      rw [habs1, habs2, habs3]

/-- The per-receipt rewrite is idempotent. -/
theorem updReceipt_idem (item_id : String) (upd r : Entity) :
    updReceipt item_id upd (updReceipt item_id upd r) =
      updReceipt item_id upd r := by
  rcases hp : compPick r with _ | av
  · have h1 : updReceipt item_id upd r = r := by
      unfold updReceipt
      rw [hp]
    rw [h1, h1]
  · obtain ⟨a, v⟩ := av
    cases v with
    | lst l =>
        have h1 : updReceipt item_id upd r =
            pySetattr r a (.lst (l.map (updCompItem item_id upd))) := by
          unfold updReceipt
          rw [hp]
        have htr : truthyV (Value.lst l) = true := by
          have := (compPick_attr_truthy r a (.lst l) hp)
          exact this
        have hlen : truthyV (Value.lst (l.map (updCompItem item_id upd))) =
            true := by
          simp only [truthyV] at htr ⊢
          simpa using (by simpa using htr : l ≠ [])
        have hp2 : compPick (updReceipt item_id upd r) =
            some (a, .lst (l.map (updCompItem item_id upd))) := by
          rw [h1]
          exact compPick_pySetattr_chosen r a _ _ hp hlen
        conv_lhs => rw [updReceipt]
        rw [hp2]
        dsimp only
        rw [h1]
        rw [pySetattr_pySetattr]
        congr 2
        rw [List.map_map]
        apply List.map_congr_left
        intro item _
        simp only [Function.comp]
        exact updCompItem_idem item_id upd item
    | str s1 =>
        have h1 : updReceipt item_id upd r = r := by
          unfold updReceipt
          rw [hp]
        rw [h1, h1]
    | dct d =>
        have h1 : updReceipt item_id upd r = r := by
          unfold updReceipt
          rw [hp]
        rw [h1, h1]
    | ent m =>
        have h1 : updReceipt item_id upd r = r := by
          unfold updReceipt
          rw [hp]
        rw [h1, h1]

/-- A receipt the pass has rewritten cannot start crashing. -/
theorem compCrash_updReceipt (item_id : String) (upd r : Entity)
    (h : compCrash r = false) : compCrash (updReceipt item_id upd r) = false := by
  rcases hp : compPick r with _ | av
  · have h1 : updReceipt item_id upd r = r := by
      unfold updReceipt
      rw [hp]
    rw [h1]
    exact h
  · obtain ⟨a, v⟩ := av
    cases v with
    | lst l =>
        have h1 : updReceipt item_id upd r =
            pySetattr r a (.lst (l.map (updCompItem item_id upd))) := by
          unfold updReceipt
          rw [hp]
        have htr : truthyV (Value.lst l) = true := compPick_attr_truthy r a _ hp
        have hlen : truthyV (Value.lst (l.map (updCompItem item_id upd))) =
            true := by
          simp only [truthyV] at htr ⊢
          simpa using (by simpa using htr : l ≠ [])
        have hp2 : compPick (updReceipt item_id upd r) =
            some (a, .lst (l.map (updCompItem item_id upd))) := by
          rw [h1]
          exact compPick_pySetattr_chosen r a _ _ hp hlen
        unfold compCrash
        rw [hp2]
    | str s1 =>
        have h1 : updReceipt item_id upd r = r := by
          unfold updReceipt
          rw [hp]
        rw [h1]
        exact h
    | dct d =>
        have h1 : updReceipt item_id upd r = r := by
          unfold updReceipt
          rw [hp]
        rw [h1]
        exact h
    | ent m =>
        unfold compCrash at h
        rw [hp] at h
        cases h

end reference_service

namespace reference_service

/-! ### The repository state after a second identical update -/

theorem update_state_of_find_none (s : Store) (rt item_id key : String)
    (payload : List (String × Value))
    (hkey : map_type_to_repo_key rt = .ok key)
    (hfind : (s.getList key).find? (fun x => Entity.uc x == some item_id) =
      none) :
    update s rt item_id payload = (.error (.notFound item_id rt), s) := by
  unfold update
  rw [hkey]
  dsimp only
  rw [hfind]

/-- The abort pass is idempotent: replaying it over its own output rewrites
the already-rewritten prefix to itself and stops at the same crashing
receipt. -/
theorem updReceiptListAbort_cons (item_id : String) (upd : Entity)
    (r : Entity) (rest : List Entity) :
    updReceiptListAbort item_id upd (r :: rest) =
      if compCrash r then (r :: rest, true)
      else (updReceipt item_id upd r ::
              (updReceiptListAbort item_id upd rest).1,
            (updReceiptListAbort item_id upd rest).2) := rfl

theorem updReceiptListAbort_idem (item_id : String) (upd : Entity)
    (l : List Entity) :
    updReceiptListAbort item_id upd (updReceiptListAbort item_id upd l).1 =
      updReceiptListAbort item_id upd l := by
  induction l with
  | nil => rfl
  | cons r rest ih =>
      by_cases hc : compCrash r = true
      · have h1 : updReceiptListAbort item_id upd (r :: rest) =
            (r :: rest, true) := by
          rw [updReceiptListAbort_cons, if_pos hc]
        rw [h1]
        exact h1
      · have hcf : compCrash r = false := by simpa using hc
        have h1 : updReceiptListAbort item_id upd (r :: rest) =
            (updReceipt item_id upd r ::
              (updReceiptListAbort item_id upd rest).1,
             (updReceiptListAbort item_id upd rest).2) := by
          rw [updReceiptListAbort_cons, hcf]
          simp only [Bool.false_eq_true, if_false]
        rw [h1]
        have hc2 : compCrash (updReceipt item_id upd r) = false :=
          compCrash_updReceipt item_id upd r hcf
        rw [updReceiptListAbort_cons, hc2]
        simp only [Bool.false_eq_true, if_false]
        rw [ih, updReceipt_idem]

/-- The receipts phase, with no crash-freeness assumption: the single receipt
key is rewritten by the abort pass and the abort flag is returned. -/
theorem receiptsPhase_eq (s : Store) (item_id : String) (upd : Entity) :
    receiptsPhase s item_id upd =
      (s.putAt "receipt_model"
        (updReceiptListAbort item_id upd (s.getList "receipt_model")).1,
       (updReceiptListAbort item_id upd (s.getList "receipt_model")).2) := by
  have hrk : receipt_keys = ["receipt_model"] := by decide
  unfold receiptsPhase
  rw [hrk]
  simp only [List.foldl]
  rfl

/-- What one dependency cascade does to the collection at `k`: the receipt
collection gets the abort pass; when that pass aborted, nothing else is
touched; otherwise the transaction and balance passes run over their keys. -/
def cascadeList (item_id : String) (upd : Entity) (crash : Bool) (k : String)
    (l : List Entity) : List Entity :=
  if k = "receipt_model" then (updReceiptListAbort item_id upd l).1
  else if crash then l
  else if k ∈ transaction_keys then
    if k ∈ balance_keys then
      (l.map (updTransaction item_id upd)).map (updBalance item_id upd)
    else l.map (updTransaction item_id upd)
  else if k ∈ balance_keys then l.map (updBalance item_id upd)
  else l

theorem cascade_getList (s2 : Store) (item_id : String) (upd : Entity)
    (k : String) :
    (update_dependencies_on_change s2 item_id upd).getList k =
      cascadeList item_id upd
        (updReceiptListAbort item_id upd (s2.getList "receipt_model")).2 k
        (s2.getList k) := by
  unfold update_dependencies_on_change
  rw [receiptsPhase_eq]
  dsimp only
  by_cases hcr : (updReceiptListAbort item_id upd
      (s2.getList "receipt_model")).2 = true
  · rw [if_pos hcr]
    unfold cascadeList
    by_cases hr : k = "receipt_model"
    · subst hr
      rw [if_pos rfl]
      by_cases hcc : (s2.containsKey "receipt_model") = true
      · rw [Store.getList_putAt_contains _ _ _ hcc]
      · obtain ⟨h1, h2⟩ := Store.getList_putAt_not_contains s2 "receipt_model"
          (updReceiptListAbort item_id upd (s2.getList "receipt_model")).1
          (by simpa using hcc)
        rw [h1, h2]
        rfl
    · rw [if_neg hr, if_pos hcr]
      exact Store.getList_putAt_ne _ _ _ _ (fun hh => hr hh.symm)
  · rw [if_neg hcr]
    by_cases hr : k = "receipt_model"
    · subst hr
      rw [getList_foldl_mapAt_not_mem _ _ _ _ (by decide),
          getList_foldl_mapAt_not_mem _ _ _ _ (by decide)]
      unfold cascadeList
      rw [if_pos rfl]
      by_cases hcc : (s2.containsKey "receipt_model") = true
      · rw [Store.getList_putAt_contains _ _ _ hcc]
      · obtain ⟨h1, h2⟩ := Store.getList_putAt_not_contains s2 "receipt_model"
          (updReceiptListAbort item_id upd (s2.getList "receipt_model")).1
          (by simpa using hcc)
        rw [h1, h2]
        rfl
    · have hput : ((s2.putAt "receipt_model"
          (updReceiptListAbort item_id upd
            (s2.getList "receipt_model")).1).getList k) = s2.getList k :=
        Store.getList_putAt_ne _ _ _ _ (fun hh => hr hh.symm)
      unfold cascadeList
      rw [if_neg hr, if_neg hcr]
      by_cases ht : k ∈ transaction_keys
      · rw [if_pos ht]
        by_cases hb : k ∈ balance_keys
        · rw [if_pos hb,
              getList_foldl_mapAt_mem _ _ _ _ hb (by decide),
              getList_foldl_mapAt_mem _ _ _ _ ht (by decide), hput]
        · rw [if_neg hb,
              getList_foldl_mapAt_not_mem _ _ _ _ hb,
              getList_foldl_mapAt_mem _ _ _ _ ht (by decide), hput]
      · rw [if_neg ht]
        by_cases hb : k ∈ balance_keys
        · rw [if_pos hb,
              getList_foldl_mapAt_mem _ _ _ _ hb (by decide),
              getList_foldl_mapAt_not_mem _ _ _ _ ht, hput]
        · rw [if_neg hb,
              getList_foldl_mapAt_not_mem _ _ _ _ hb,
              getList_foldl_mapAt_not_mem _ _ _ _ ht, hput]

/-- A second cascade (with the same abort flag) over an already-cascaded
collection is the identity. -/
theorem cascadeList_absorb (item_id : String) (upd : Entity) (crash : Bool)
    (k : String) (l : List Entity) :
    cascadeList item_id upd crash k (cascadeList item_id upd crash k l) =
      cascadeList item_id upd crash k l := by
  unfold cascadeList
  by_cases hr : k = "receipt_model"
  · simp only [if_pos hr]
    rw [updReceiptListAbort_idem]
  · simp only [if_neg hr]
    by_cases hc : crash = true
    · simp only [if_pos hc]
    · simp only [if_neg hc]
      by_cases ht : k ∈ transaction_keys
      · simp only [if_pos ht]
        by_cases hb : k ∈ balance_keys
        · simp only [if_pos hb, List.map_map]
          apply List.map_congr_left
          intro t _
          simp only [Function.comp]
          rw [updTransaction_after_balance, updBalance_idem]
        · simp only [if_neg hb, List.map_map]
          apply List.map_congr_left
          intro t _
          simp only [Function.comp]
          exact updTransaction_idem item_id upd t
      · simp only [if_neg ht]
        by_cases hb : k ∈ balance_keys
        · simp only [if_pos hb, List.map_map]
          apply List.map_congr_left
          intro b _
          simp only [Function.comp]
          exact updBalance_idem item_id upd b
        · simp only [if_neg hb]

/-- Collections the cascade never visits are left alone. -/
theorem cascadeList_of_not_cascaded (item_id : String) (upd : Entity)
    (crash : Bool) (k : String) (l : List Entity) (hr : k ≠ "receipt_model")
    (ht : k ∉ transaction_keys) (hb : k ∉ balance_keys) :
    cascadeList item_id upd crash k l = l := by
  unfold cascadeList
  rw [if_neg hr]
  by_cases hc : crash = true
  · rw [if_pos hc]
  · rw [if_neg hc, if_neg ht, if_neg hb]

end reference_service

namespace reference_service

/-- A collection with two entities sharing a unique_code (add never rejects
duplicates, so such a state is reachable). -/
def c6dupA : Entity := .mk [("unique_code", .str "X"), ("name", .str "a")]

def c6dupB : Entity := .mk [("unique_code", .str "X"), ("name", .str "b")]

def c6dupStore : Store := [("nomenclature_model", [c6dupA, c6dupB])]

/-- C6: counterexample to the literal claim.  With two entities of
unique_code "X" in the nomenclature collection (reachable, since add performs
no duplicate check), updating "X" with a payload that renames the code to "Y"
and then replaying the very same call mutates the second duplicate as well:
the observable repository state after two calls differs from the state after
one, so the repeated call is neither the same success nor a no-op. -/
theorem c6_counterexample :
    ((((update (update c6dupStore "nomenclature" "X"
          [("unique_code", .str "Y")]).2 "nomenclature" "X"
          [("unique_code", .str "Y")]).2).getList "nomenclature_model").map
        Entity.uc) ≠
      ((((update c6dupStore "nomenclature" "X"
          [("unique_code", .str "Y")]).2).getList "nomenclature_model").map
        Entity.uc) := by
  decide

/-- C6 (amended): update is idempotent on the repository state for every
resolvable kind, provided the target collection is a faithful image of Python
objects (no duplicate attribute names) and the unique_code identifies at most
one entity of the target collection.  A second identical call either finds
the same (already-patched) object and rewrites every field and every
dependent holder to the value it already has — a receipts pass that aborted
on a TypeError replays over its own output and aborts at the same receipt —
or, when the payload renamed the unique_code, raises NotFoundError without
touching anything; in both cases every collection reads back unchanged. -/
theorem c6_amended_update_idempotent (s : Store) (rt item_id key : String)
    (payload : List (String × Value))
    (hkey : map_type_to_repo_key rt = .ok key)
    (hnodup : ∀ e ∈ s.getList key, Entity.keysNodup e)
    (huniq : ((s.getList key).filter
      (fun x => Entity.uc x == some item_id)).length ≤ 1) :
    ∀ k, ((update ((update s rt item_id payload).2) rt item_id
        payload).2).getList k =
      ((update s rt item_id payload).2).getList k := by
  intro k
  have hkc := map_type_key_cases rt key hkey
  have hkr : key ≠ "receipt_model" := by
    rcases hkc with rfl | rfl | rfl | rfl <;> decide
  have hkt : key ∉ transaction_keys := by
    rcases hkc with rfl | rfl | rfl | rfl <;> decide
  have hkb : key ∉ balance_keys := by
    rcases hkc with rfl | rfl | rfl | rfl <;> decide
  rcases hfind : (s.getList key).find? (fun x => Entity.uc x == some item_id)
    with _ | target
  · have h1 : update s rt item_id payload =
        (.error (.notFound item_id rt), s) :=
      update_state_of_find_none s rt item_id key payload hkey hfind
    have h2 : (update s rt item_id payload).2 = s := by rw [h1]
    rw [h2, h2]
  · have hndt : Entity.keysNodup target :=
      hnodup target (List.mem_of_find?_eq_some hfind)
    have h1 := update_ok_state s rt item_id key payload target hkey hfind
    have hstate1 : (update s rt item_id payload).2 =
        update_dependencies_on_change
          (s.setList key (replaceFirstByUc (s.getList key) item_id
            (applyPayload target payload)))
          item_id (applyPayload target payload) := by
      rw [h1]
    have hrm1 : (s.setList key (replaceFirstByUc (s.getList key) item_id
        (applyPayload target payload))).getList "receipt_model" =
        s.getList "receipt_model" :=
      Store.getList_setList_ne _ _ _ _ hkr
    have hgl1 : ∀ kk, ((update s rt item_id payload).2).getList kk =
        cascadeList item_id (applyPayload target payload)
          (updReceiptListAbort item_id (applyPayload target payload)
            (s.getList "receipt_model")).2 kk
          ((s.setList key (replaceFirstByUc (s.getList key) item_id
            (applyPayload target payload))).getList kk) := by
      intro kk
      rw [hstate1, cascade_getList, hrm1]
    have hkeylist : ((update s rt item_id payload).2).getList key =
        replaceFirstByUc (s.getList key) item_id
          (applyPayload target payload) := by
      rw [hgl1 key, cascadeList_of_not_cascaded _ _ _ _ _ hkr hkt hkb,
          Store.getList_setList_same]
    have hrm2 : ((update s rt item_id payload).2).getList "receipt_model" =
        (updReceiptListAbort item_id (applyPayload target payload)
          (s.getList "receipt_model")).1 := by
      rw [hgl1 "receipt_model"]
      unfold cascadeList
      rw [if_pos rfl, hrm1]
    by_cases huc : (Entity.uc (applyPayload target payload) ==
        some item_id) = true
    · have hfind2 : (((update s rt item_id payload).2).getList key).find?
          (fun x => Entity.uc x == some item_id) =
          some (applyPayload target payload) := by
        rw [hkeylist]
        exact replaceFirst_find_match (s.getList key) item_id _
          (by rw [hfind]; rfl) huc
      have h2 := update_ok_state ((update s rt item_id payload).2) rt item_id
        key payload (applyPayload target payload) hkey hfind2
      have happ : applyPayload (applyPayload target payload) payload =
          applyPayload target payload := applyPayload_idem target payload hndt
      have hstate2 : (update ((update s rt item_id payload).2) rt item_id
          payload).2 =
          update_dependencies_on_change
            (((update s rt item_id payload).2).setList key
              (replaceFirstByUc (((update s rt item_id payload).2).getList key)
                item_id (applyPayload (applyPayload target payload) payload)))
            item_id (applyPayload (applyPayload target payload) payload) := by
        rw [h2]
      rw [hstate2, happ, hkeylist, replaceFirst_self _ _ _ huc,
          cascade_getList, Store.getList_setList_ne _ _ _ _ hkr, hrm2,
          updReceiptListAbort_idem]
      by_cases hk : k = key
      · subst hk
        rw [Store.getList_setList_same, hkeylist,
            cascadeList_of_not_cascaded _ _ _ _ _ hkr hkt hkb]
      · rw [Store.getList_setList_ne _ _ _ _ (fun hh => hk hh.symm), hgl1 k]
        exact cascadeList_absorb item_id _ _ k _
    · have hucf : (Entity.uc (applyPayload target payload) ==
          some item_id) = false := by simpa using huc
      have hfind2 : (((update s rt item_id payload).2).getList key).find?
          (fun x => Entity.uc x == some item_id) = none := by
        rw [hkeylist]
        exact replaceFirst_none_of_unique (s.getList key) item_id _ hucf huniq
      have h2 : update ((update s rt item_id payload).2) rt item_id payload =
          (.error (.notFound item_id rt), (update s rt item_id payload).2) :=
        update_state_of_find_none ((update s rt item_id payload).2) rt item_id
          key payload hkey hfind2
      rw [h2]

/-- The C6 amended witness data: a nomenclature entity and one transaction
referring to it by id. -/
def c6wTarget : Entity := .mk [("unique_code", .str "n1"), ("name", .str "Old")]

def c6wTx : Entity :=
  .mk [("unique_code", .str "t1"), ("nomenclature_id", .str "n1")]

def c6wStore : Store :=
  [("nomenclature_model", [c6wTarget]), ("transaction_key", [c6wTx])]

/-- C6 amended witness: the hypotheses hold on a concrete store and the
transaction collection reads back unchanged after the second update. -/
theorem c6_amended_update_idempotent_witness :
    (∀ e ∈ c6wStore.getList "nomenclature_model", Entity.keysNodup e) ∧
    ((c6wStore.getList "nomenclature_model").filter
      (fun x => Entity.uc x == some "n1")).length ≤ 1 ∧
    ((update ((update c6wStore "nomenclature" "n1"
        [("name", .str "New")]).2) "nomenclature" "n1"
        [("name", .str "New")]).2).getList "transaction_key" =
      ((update c6wStore "nomenclature" "n1"
        [("name", .str "New")]).2).getList "transaction_key" :=
  ⟨by decide, by decide,
   (c6_amended_update_idempotent c6wStore "nomenclature" "n1"
     "nomenclature_model" [("name", .str "New")] rfl (by decide)
     (by decide)) "transaction_key"⟩

end reference_service
